import Mathlib

/-!
Verification development for the 4KHDHub stream-resolution provider
(`src/providers/4khdhub.js`).  JavaScript strings are modelled as lists of
Unicode code points (`Str := List Nat`); binary strings (the output of
Node's `Buffer.toString("binary")`) are the sublists whose codes are below
256, so bytes and latin-1 code points coincide.  Each definition mirrors
one function or expression of the source file; oracles (network responses,
HTML parses by cheerio, cache contents) are supplied through an explicit
environment record so that every pipeline function is a pure, executable
Lean function.
-/


/-- JavaScript string, as its list of Unicode code points. -/
abbrev Str := List Nat

/-- Code points of a Lean string literal (used to transcribe the JS literals). -/
def S (s : String) : Str := s.toList.map Char.toNat

/-- Decimal digit test (JS `\d`, code points 48-57). -/
def isDigit (c : Nat) : Bool := 48 ≤ c && c ≤ 57

/-- ASCII letter/digit test, case-insensitive, mirroring the character class
`[a-z0-9]` with the `i` flag used by the cache-key `replace` calls. -/
def isAlnumCode (c : Nat) : Bool :=
  (97 ≤ c && c ≤ 122) || (65 ≤ c && c ≤ 90) || (48 ≤ c && c ≤ 57)

/-- JS whitespace class `\s` restricted to its ASCII members (tab, LF, VT,
FF, CR, space); the source pages only contain these. -/
def isWS (c : Nat) : Bool := c = 32 || c = 9 || c = 10 || c = 11 || c = 12 || c = 13

/-- ASCII lowering of one code point (JS `toLowerCase` on the ASCII range;
the strings compared by the provider are ASCII). -/
def lowerCode (c : Nat) : Nat := if 65 ≤ c && c ≤ 90 then c + 32 else c

/-- JS `toLowerCase` over the modelled string. -/
def lowerStr (s : Str) : Str := s.map lowerCode

/-- Prefix test: does `pat` begin `s`?  Backs JS `String.startsWith` and the
anchored step of substring search. -/
def leadsWith : Str → Str → Bool
  | [], _ => true
  | _ :: _, [] => false
  | p :: ps, c :: cs => p = c && leadsWith ps cs

/-- JS `String.includes`: `pat` occurs somewhere in `s`. -/
def containsSub : Str → Str → Bool
  | [], pat => leadsWith pat []
  | c :: t, pat => leadsWith pat (c :: t) || containsSub t pat

/-- Case-insensitive containment, the meaning of the `/X/i` regex tests the
provider applies to titles and row HTML. -/
def icontains (s pat : Str) : Bool := containsSub (lowerStr s) (lowerStr pat)

/-- JS `String.trim` (leading part). -/
def dropWS (s : Str) : Str := s.dropWhile (fun c => isWS c)

/-- JS `String.trim`. -/
def trimStr (s : Str) : Str := (dropWS ((dropWS s.reverse).reverse))

/-- Decimal rendering of a natural number (JS `String(n)` for naturals). -/
def natToStr (n : Nat) : Str := (Nat.toDigits 10 n).map Char.toNat

/-- Decimal rendering of an integer (JS `String(i)`). -/
def intToStr (i : Int) : Str :=
  if i < 0 then 45 :: natToStr i.natAbs else natToStr i.natAbs

/-- Value of a digit run (used for `parseInt` on strings that begin with
digits, e.g. `parseInt("2160p")`). -/
def digitsVal (s : Str) : Nat :=
  (s.takeWhile (fun c => isDigit c)).foldl (fun a c => a * 10 + (c - 48)) 0

/-- JS `parseInt(s)`: skip whitespace, optional sign, then a digit run;
`none` models `NaN`. -/
def parseIntJS (s : Str) : Option Int :=
  let t := dropWS s
  match t with
  | 43 :: r => if (r.takeWhile (fun c => isDigit c)) = [] then none else some (digitsVal r)
  | 45 :: r => if (r.takeWhile (fun c => isDigit c)) = [] then none else some (-(digitsVal r : Int))
  | _ => if (t.takeWhile (fun c => isDigit c)) = [] then none else some (digitsVal t)

/-- First occurrence replacement, JS `String.replace` with a plain-string
pattern (used for `'/u/' → '/api/file/'` and stripping `" - HubCloud"`). -/
def replaceFirst : Str → Str → Str → Str
  | [], _, _ => []
  | c :: t, pat, rep =>
    if leadsWith pat (c :: t) then rep ++ (c :: t).drop pat.length
    else c :: replaceFirst t pat rep

/-- JS truthiness of an optional string: `undefined`/`null` and the empty
string are falsy. -/
def truthyS : Option Str → Option Str
  | none => none
  | some s => if s = [] then none else some s

/-! ### Base64 (Node `Buffer`, the `atob` polyfill at `4khdhub.js:55`) -/

/-- Base64 alphabet, by 6-bit value. -/
def b64code (n : Nat) : Nat :=
  if n < 26 then 65 + n
  else if n < 52 then 97 + (n - 26)
  else if n < 62 then 48 + (n - 52)
  else if n = 62 then 43
  else 47

/-- Inverse of the base64 alphabet; `none` on characters outside it. -/
def b64val (c : Nat) : Option Nat :=
  if 65 ≤ c && c ≤ 90 then some (c - 65)
  else if 97 ≤ c && c ≤ 122 then some (c - 97 + 26)
  else if 48 ≤ c && c ≤ 57 then some (c - 48 + 52)
  else if c = 43 then some 62
  else if c = 47 then some 63
  else none

/-- Standard base64 encoding of a byte sequence, with `=` padding.  This is
the encoding inverted by the provider's `atob` polyfill
(`Buffer.from(str, "base64")`). -/
def b64encode : List Nat → Str
  | b1 :: b2 :: b3 :: rest =>
    b64code (b1 / 4) :: b64code ((b1 % 4) * 16 + b2 / 16) ::
    b64code ((b2 % 16) * 4 + b3 / 64) :: b64code (b3 % 64) :: b64encode rest
  | [b1, b2] =>
    [b64code (b1 / 4), b64code ((b1 % 4) * 16 + b2 / 16), b64code ((b2 % 16) * 4), 61]
  | [b1] => [b64code (b1 / 4), b64code ((b1 % 4) * 16), 61, 61]
  | [] => []

/-- Standard base64 decoding; `none` on input that is not well-formed
base64 (`=` padding is accepted only at the very end). -/
def b64decode : Str → Option (List Nat)
  | c1 :: c2 :: c3 :: c4 :: rest => do
    let n1 ← b64val c1
    let n2 ← b64val c2
    if c3 = 61 then
      if c4 = 61 then
        if rest = [] then some [n1 * 4 + n2 / 16] else none
      else none
    else do
      let n3 ← b64val c3
      if c4 = 61 then
        if rest = [] then some [n1 * 4 + n2 / 16, (n2 % 16) * 16 + n3 / 4] else none
      else do
        let n4 ← b64val c4
        let tl ← b64decode rest
        some ((n1 * 4 + n2 / 16) :: ((n2 % 16) * 16 + n3 / 4) :: ((n3 % 4) * 64 + n4) :: tl)
  | [] => some []
  | _ => none

/-- The provider's `atob` polyfill (`4khdhub.js:55`):
`Buffer.from(str, "base64").toString("binary")`.  On well-formed base64 it
returns the decoded bytes as a latin-1 string (identity on code points);
Node's decoder is lenient and never throws, so ill-formed input is modelled
by the empty string (no claim depends on the lenient branch). -/
def atobJS (s : Str) : Str := (b64decode s).getD []

/-- Every code point emitted by `b64encode` lies in the base64 alphabet or
is the pad character `=` (61). -/
def isB64Char (c : Nat) : Bool := (b64val c).isSome || c = 61

/-! ### rot13 (`rot13-cipher` package used at `4khdhub.js:185`) -/

/-- Rotate-by-13 substitution on one code point: letters rotate within their
case, all other characters are unchanged. -/
def rot13c (c : Nat) : Nat :=
  if 97 ≤ c ∧ c ≤ 122 then (c - 97 + 13) % 26 + 97
  else if 65 ≤ c ∧ c ≤ 90 then (c - 65 + 13) % 26 + 65
  else c

/-- The rot13 cipher over a string (`rot13Cipher` at `4khdhub.js:185`). -/
def rot13 (s : Str) : Str := s.map rot13c

/-! ### Regex scanners

Models of the literal regular expressions in `4khdhub.js`, with JavaScript
leftmost-match semantics: try a match at each position from the left, first
success wins. -/

/-- Lazy capture step of `/['"](.*?)['"]/`: take characters up to the first
quote (single 39 or double 34); `.` does not cross a line break (10/13);
returns the capture and the text after the closing quote. -/
def scanCapture : Str → Option (Str × Str)
  | [] => none
  | c :: t =>
    if c = 39 ∨ c = 34 then some ([], t)
    else if c = 10 ∨ c = 13 then none
    else (scanCapture t).map (fun p => (c :: p.1, p.2))

/-- Attempt of `/'o'\s*,\s*['"](.*?)['"]/` at the start of the string
(`4khdhub.js:175`). -/
def matchOAt (s : Str) : Option Str :=
  match s with
  | c1 :: c2 :: c3 :: r1 =>
    if c1 = 39 ∧ c2 = 111 ∧ c3 = 39 then
      match dropWS r1 with
      | c4 :: r2 =>
        if c4 = 44 then
          match dropWS r2 with
          | q :: r3 =>
            if q = 39 ∨ q = 34 then (scanCapture r3).map (fun p => p.1) else none
          | [] => none
        else none
      | [] => none
    else none
  | _ => none

/-- Leftmost match of the redirect-token pattern over the whole page
(`redirectHtml.match(/'o'\s*,\s*['"](.*?)['"]/)` at `4khdhub.js:175`). -/
def extractOToken : Str → Option Str
  | [] => none
  | c :: t =>
    match matchOAt (c :: t) with
    | some tok => some tok
    | none => extractOToken t

/-- Case-insensitive single-letter comparison (`/i` flag), `lower` being the
lowercase code point. -/
def isCI (c lower : Nat) : Bool := c = lower || c + 32 = lower

/-- Greedy capture of `/([^'"]+)['"]/`: all characters up to the first
quote, requiring at least one; line breaks are allowed by the class. -/
def grabToQuote : Str → Option (Str × Str)
  | [] => none
  | c :: t =>
    if c = 39 ∨ c = 34 then some ([], t)
    else (grabToQuote t).map (fun p => (c :: p.1, p.2))

/-- Attempt of `/var\s+url\s*=\s*['"]([^'"]+)['"]/i` at the start of the
string (`4khdhub.js:283`). -/
def matchVarUrlAt (s : Str) : Option Str :=
  match s with
  | v :: a :: r :: w :: rest =>
    if isCI v 118 && isCI a 97 && isCI r 114 && isWS w then
      match dropWS rest with
      | u :: r2 :: l :: rest2 =>
        if isCI u 117 && isCI r2 114 && isCI l 108 then
          match dropWS rest2 with
          | 61 :: rest3 =>
            match dropWS rest3 with
            | q :: rest4 =>
              if q = 39 ∨ q = 34 then
                match grabToQuote rest4 with
                | some (cap, _) => if cap = [] then none else some cap
                | none => none
              else none
            | [] => none
          | _ => none
        else none
      | _ => none
    else none
  | _ => none

/-- Leftmost match of the `var url = "..."` destination pattern
(`4khdhub.js:283`). -/
def extractVarUrl : Str → Option Str
  | [] => none
  | c :: t =>
    match matchVarUrlAt (c :: t) with
    | some u => some u
    | none => extractVarUrl t

/-- Attempt of the meta-refresh pattern
`/content=['"]\d+;url=([^'"]+)['"]/i` at the start of the string
(`4khdhub.js:288`). -/
def matchMetaAt (s : Str) : Option Str :=
  match s with
  | c1 :: c2 :: c3 :: c4 :: c5 :: c6 :: c7 :: 61 :: q :: rest =>
    if isCI c1 99 && isCI c2 111 && isCI c3 110 && isCI c4 116 && isCI c5 101 &&
       isCI c6 110 && isCI c7 116 && (q = 39 || q = 34) then
      let ds := rest.takeWhile (fun c => isDigit c)
      if ds = [] then none
      else
        match rest.dropWhile (fun c => isDigit c) with
        | 59 :: u1 :: u2 :: u3 :: 61 :: rest2 =>
          if isCI u1 117 && isCI u2 114 && isCI u3 108 then
            match grabToQuote rest2 with
            | some (cap, _) => if cap = [] then none else some cap
            | none => none
          else none
        | _ => none
    else none
  | _ => none

/-- Leftmost match of the meta-refresh fallback pattern detected (but not
acted on) at `4khdhub.js:288`. -/
def extractMetaRefresh : Str → Option Str
  | [] => none
  | c :: t =>
    match matchMetaAt (c :: t) with
    | some u => some u
    | none => extractMetaRefresh t

/-- Attempt of `/\d{3,4}p/i` at the start of the string: a greedy run of 3
or 4 digits directly followed by `p`/`P` (a fifth digit forecloses the
match at this position). -/
def match34At (s : Str) : Option Str :=
  let ds := s.takeWhile (fun c => isDigit c)
  let rest := s.dropWhile (fun c => isDigit c)
  if ds.length = 3 ∨ ds.length = 4 then
    match rest with
    | p :: _ => if p = 112 ∨ p = 80 then some (ds ++ [p]) else none
    | [] => none
  else none

/-- Leftmost match of `/\d{3,4}p/i` (`4khdhub.js:205` and `:212`). -/
def firstMatch34 : Str → Option Str
  | [] => none
  | c :: t =>
    match match34At (c :: t) with
    | some m => some m
    | none => firstMatch34 t

/-- Attempt of `/([\d.]+ ?[GM]B)/i` at the start of the string. -/
def matchSizeAt (s : Str) : Option Str :=
  let run := s.takeWhile (fun c => isDigit c || c = 46)
  let rest := s.dropWhile (fun c => isDigit c || c = 46)
  if run = [] then none
  else
    match rest with
    | 32 :: g :: b :: _ =>
      if (isCI g 103 || isCI g 109) && isCI b 98 then some (run ++ [32, g, b])
      else
        match rest with
        | g2 :: b2 :: _ =>
          if (isCI g2 103 || isCI g2 109) && isCI b2 98 then some (run ++ [g2, b2]) else none
        | _ => none
    | g :: b :: _ =>
      if (isCI g 103 || isCI g 109) && isCI b 98 then some (run ++ [g, b]) else none
    | _ => none

/-- Leftmost match of the size pattern (`4khdhub.js:205`). -/
def extractSize : Str → Option Str
  | [] => none
  | c :: t =>
    match matchSizeAt (c :: t) with
    | some m => some m
    | none => extractSize t

/-! ### Minimal JSON (`JSON.parse` at `4khdhub.js:187`)

The redirect token decodes to a flat JSON object with string values and no
escape sequences, e.g. `{"o":"aHR0cHM6..."}`.  The parser below models
`JSON.parse` on exactly this fragment; any other input is a parse error
(in JavaScript, a thrown exception — modelled by `Except.error`). -/

/-- One `"key":"value"` pair followed by the remainder.  Keys and values may
not contain quotes or backslashes (code 92). -/
def parseJsonStringLit : Str → Option (Str × Str)
  | [] => none
  | c :: t =>
    if c = 34 then some ([], t)
    else if c = 92 then none
    else (parseJsonStringLit t).map (fun p => (c :: p.1, p.2))

/-- Pair list of a flat JSON object body, expecting `"k":"v"` pairs
separated by commas and terminated by `}` (125). -/
def parseJsonPairs : Str → Nat → Option (List (Str × Str))
  | _, 0 => none
  | s, fuel + 1 =>
    match s with
    | 34 :: t =>
      match parseJsonStringLit t with
      | some (key, r1) =>
        match r1 with
        | 58 :: 34 :: r2 =>
          match parseJsonStringLit r2 with
          | some (val, r3) =>
            match r3 with
            | 125 :: r4 => if r4 = [] then some [(key, val)] else none
            | 44 :: r4 => (parseJsonPairs r4 fuel).map (fun ps => (key, val) :: ps)
            | _ => none
          | none => none
        | _ => none
      | none => none
    | _ => none

/-- `JSON.parse` restricted to flat string-valued objects; `Except.error`
models the exception thrown on any other input. -/
def jsonParseE (s : Str) : Except Unit (List (Str × Str)) :=
  match s with
  | 123 :: t =>
    if t = [125] then Except.ok []
    else
      match parseJsonPairs t t.length with
      | some ps => Except.ok ps
      | none => Except.error ()
  | _ => Except.error ()

/-- Field access `obj.o`: first binding of the key, `none` when absent
(JS `undefined`). -/
def jsonField (obj : List (Str × Str)) (key : Str) : Option Str :=
  match obj.find? (fun p => p.1 = key) with
  | some p => some p.2
  | none => none

/-- Serialised wrapped object used by the origin site: the literal
code points of a left brace, `"o":"`, the payload, `"` and a right brace. -/
def jsonWrap (v : Str) : Str := 123 :: 34 :: 111 :: 34 :: 58 :: 34 :: (v ++ [34, 125])

/-! ### Edit distance (`fast-levenshtein` used at `4khdhub.js:145`) -/

/-- One dynamic-programming row update of the Levenshtein distance, as the
`fast-levenshtein` package computes it: `cur` is the entry to the left of
the one being produced, the list argument carries the previous row
(`p0` diagonal, `p1` above). -/
def levRowAux (a : Nat) : Str → List Nat → Nat → List Nat
  | tj :: trest, p0 :: p1 :: prest, cur =>
    let v := min (min (cur + 1) (p1 + 1)) (p0 + (if a = tj then 0 else 1))
    v :: levRowAux a trest (p1 :: prest) v
  | _, _, _ => []

/-- All row updates, one per character of the first string. -/
def levRows (t : Str) : Str → List Nat → List Nat
  | [], prev => prev
  | a :: srest, prev =>
    let first := prev.headD 0 + 1
    levRows t srest (first :: levRowAux a t prev first)

/-- Levenshtein edit distance (unit costs), by the row-by-row dynamic
programme of the `fast-levenshtein` package (`levenshtein.get` at
`4khdhub.js:145`). -/
def lev (s t : Str) : Nat :=
  (levRows t s (List.range (t.length + 1))).getLastD 0

/-! ### Search-card selection (`fetchPageUrl`, `4khdhub.js:111-161`) -/

/-- One `.movie-card` element of the search-results page, as read by the
cheerio queries of `fetchPageUrl`: the texts of its `.movie-card-format`
descendants, the concatenated text of `.movie-card-meta`, the text of
`.movie-card-title`, and the card's `href` attribute. -/
structure Card where
  formats : List Str
  metaText : Str
  titleText : Str
  href : Option Str
deriving DecidableEq, Repr

/-- Scan of the lazy bracket body `/\[.*?]/`: text up to the matching `]`
(93), failing at a line break or the end of input. -/
def findClose : Str → Option Str
  | [] => none
  | c :: r => if c = 93 then some r else if c = 10 ∨ c = 13 then none else findClose r

/-- Fuel-bounded core of the bracket-tag deletion; each recursive call
strictly shrinks the remaining text (a matched `[...]` consumes at least
two characters), so fuel equal to the input length always suffices and the
fuel-exhausted branch is unreachable. -/
def stripBracketsGo : Nat → Str → Str
  | 0, s => s
  | _ + 1, [] => []
  | fuel + 1, c :: t =>
    if c = 91 then
      match findClose t with
      | some rest => stripBracketsGo fuel rest
      | none => c :: stripBracketsGo fuel t
    else c :: stripBracketsGo fuel t

/-- JS `replace(/\[.*?]/g, "")`: delete every bracketed tag like `[4K]`
(lazy body, not crossing a line break), used on card titles
(`4khdhub.js:141`). -/
def stripBrackets (s : Str) : Str := stripBracketsGo s.length s

/-- Cleaned card title compared against the target: bracketed tags
stripped, trimmed, lowercased (`4khdhub.js:139-145`). -/
def cleanTitle (t : Str) : Str := lowerStr (trimStr (stripBrackets t))

/-- Absolutisation of a matched card's `href` (`4khdhub.js:148-151`):
relative links are prefixed with the base URL, with a `/` inserted unless
already present; empty strings are left alone (falsy guard). -/
def absolutizeHref (h : Str) : Str :=
  if h ≠ [] ∧ ¬ leadsWith (S "http") h then
    S "https://4khdhub.fans" ++ (if leadsWith [47] h then [] else [47]) ++ h
  else h

/-- Filter (a) of `fetchPageUrl`: some `.movie-card-format` descendant text
contains the requested kind label (`:contains`, `4khdhub.js:127-131`). -/
def cardKindOk (target : Str) (c : Card) : Bool :=
  c.formats.any (fun f => containsSub f target)

/-- Filter (b): `parseInt` of the meta text is a number within ±1 of the
target year (`4khdhub.js:132-137`). -/
def cardYearOk (year : Int) (c : Card) : Bool :=
  match parseIntJS c.metaText with
  | some y => (y - year).natAbs ≤ 1
  | none => false

/-- Filter (c): edit distance below 5 between the cleaned, lowercased card
title and the lowercased target title (`4khdhub.js:138-146`). -/
def cardTitleOk (name : Str) (c : Card) : Bool :=
  lev (cleanTitle c.titleText) (lowerStr name) < 5

/-- The card-selection core of `fetchPageUrl` (`4khdhub.js:124-156`):
sequential cheerio filters for kind, year and fuzzy title, then `.map` to
the absolutised `href` (dropping cards with no `href`, as jQuery `.map`
drops `undefined`), then the first element or `null`. -/
def selectCard (cards : List Card) (name : Str) (year : Int) (isSeries : Bool) : Option Str :=
  let target := if isSeries then S "Series" else S "Movies"
  ((((cards.filter (cardKindOk target)).filter (cardYearOk year)).filter
      (cardTitleOk name)).filterMap (fun c => c.href.map absolutizeHref)).head?

/-- Acceptance predicate spelled from the specification's words: the card
carries the requested kind label, declares a year within ±1 of the target,
and its bracket-stripped title is at edit distance strictly below 5 from
the target title. -/
def specCardAccept (name : Str) (year : Int) (isSeries : Bool) (c : Card) : Bool :=
  cardKindOk (if isSeries then S "Series" else S "Movies") c &&
  cardYearOk year c && cardTitleOk name c

/-! ### Quality-height normalisation (`extractSourceResults`, `4khdhub.js:203-222`) -/

/-- The computed `height` of a source entry (`4khdhub.js:206-222`): first
the leftmost `\d{3,4}p` match of the row HTML, else of the title, parsed
with `parseInt`; if that yields 0, a fallback ladder of case-insensitive
marker tests (`4K|2160p`, `1080p`, `720p`, `480p`) over title and HTML. -/
def heightOf (localHtml title : Str) : Nat :=
  let hm := match firstMatch34 localHtml with
    | some m => some m
    | none => firstMatch34 title
  let height := match hm with
    | some m => digitsVal m
    | none => 0
  if height = 0 then
    if icontains title (S "4K") || icontains title (S "2160p") ||
       icontains localHtml (S "4K") || icontains localHtml (S "2160p") then 2160
    else if icontains title (S "1080p") || icontains localHtml (S "1080p") then 1080
    else if icontains title (S "720p") || icontains localHtml (S "720p") then 720
    else if icontains title (S "480p") || icontains localHtml (S "480p") then 480
    else 0
  else height

/-! ### Sizes (`bytes` package: `bytes.parse` / `bytes.format`) -/

/-- Anchored number-with-unit parse of the `bytes` package
(`bytes.parse("1.4 GB")`), binary multipliers; `none` is the package's
`null` on non-matching input. -/
def bytesParseOpt (s : Str) : Option Nat :=
  let intPart := s.takeWhile (fun c => isDigit c)
  let r1 := s.dropWhile (fun c => isDigit c)
  if intPart = [] then none
  else
    let fracAndRest : Str × Str :=
      match r1 with
      | 46 :: r2 => (r2.takeWhile (fun c => isDigit c), r2.dropWhile (fun c => isDigit c))
      | _ => ([], r1)
    let frac := fracAndRest.1
    let r3 := (fracAndRest.2).dropWhile (fun c => c = 32)
    let mult : Option Nat :=
      match r3 with
      | [g, b] =>
        if isCI g 103 && isCI b 98 then some 1073741824
        else if isCI g 109 && isCI b 98 then some 1048576
        else if isCI g 107 && isCI b 98 then some 1024
        else none
      | [b] => if isCI b 98 then some 1 else none
      | _ => none
    match mult with
    | some m => some ((digitsVal intPart * 10 ^ frac.length + digitsVal frac) * m / 10 ^ frac.length)
    | none => none

/-- Human-readable size rendering standing in for `bytes.format`; its exact
text is display-only metadata, inspected by no claim. -/
def bytesFormat (n : Nat) : Str :=
  if n ≥ 1073741824 then natToStr (n / 1073741824) ++ S " GB"
  else if n ≥ 1048576 then natToStr (n / 1048576) ++ S " MB"
  else natToStr n ++ S " B"

/-! ### Final-links anchor classification (`extractHubCloud`, `4khdhub.js:313-348`) -/

/-- An `<a>` element as read by the classification loop: its text, its
`href` attribute and its `class` attribute (both possibly absent). -/
structure Anchor where
  text : Str
  href : Option Str
  className : Option Str
deriving DecidableEq, Repr

/-- Entry metadata threaded through the extraction (`meta` object built at
`4khdhub.js:224-228`); `bytes = none` models the `null` returned by
`bytes.parse` on unparseable input. -/
structure Meta where
  bytes : Option Nat
  height : Nat
  title : Str
deriving DecidableEq, Repr

/-- A final resolved link (`results.push` at `4khdhub.js:323-346`). -/
structure Link where
  source : Str
  url : Str
  meta : Meta
deriving DecidableEq, Repr

/-- The `href` actually used by the loop: skip anchors with no `href`, an
empty one, or the placeholder `#` (`if (!href || href === '#') return`). -/
def anchorHref (a : Anchor) : Option Str :=
  match a.href with
  | none => none
  | some h => if h = [] ∨ h = [35] then none else some h

/-- Label test for the `FSL` branch (`4khdhub.js:322`). -/
def fslLabel (a : Anchor) : Bool :=
  containsSub (trimStr a.text) (S "FSL") || containsSub (trimStr a.text) (S "Download File")

/-- Label test for the `PixelServer` branch (`4khdhub.js:330`). -/
def pixelLabel (a : Anchor) : Bool :=
  containsSub (trimStr a.text) (S "PixelServer") || containsSub (trimStr a.text) (S "Fast Server")

/-- Label test for the `Direct` branch (`4khdhub.js:338`): the text contains
`Instant`, or the optional-chained `class` attribute contains
`btn-success`. -/
def directLabel (a : Anchor) : Bool :=
  containsSub (trimStr a.text) (S "Instant") ||
  (match a.className with
   | some cl => containsSub cl (S "btn-success")
   | none => false)

/-- PixelServer URL rewriting helper (`cleanPixelUrl`, `4khdhub.js:314`). -/
def cleanPixelUrl (u : Str) : Str := replaceFirst u (S "/u/") (S "/api/file/")

/-- One step of the classification loop body (`$('a').each`,
`4khdhub.js:316-348`), appending to the accumulated `results`. -/
def classifyAnchor (meta : Meta) (acc : List Link) (a : Anchor) : List Link :=
  match anchorHref a with
  | none => acc
  | some h =>
    if fslLabel a then acc ++ [⟨S "FSL", h, meta⟩]
    else if pixelLabel a then acc ++ [⟨S "PixelServer", cleanPixelUrl h, meta⟩]
    else if directLabel a then
      if acc.any (fun r => r.url = h) then acc else acc ++ [⟨S "Direct", h, meta⟩]
    else acc

/-- The whole classification pass over the final-links page's anchors. -/
def extractLinks (meta : Meta) (anchors : List Anchor) : List Link :=
  anchors.foldl (classifyAnchor meta) []

/-! ### HTTP retry loop (`fetchText`, `4khdhub.js:62-80`) -/

/-- Outcome of one `client.get` attempt: a network-level failure (timeout,
connection error), or an HTTP response with a status code and body.  With
`validateStatus: s => 200 <= s && s < 500`, axios throws on a network
failure and on any status outside `[200, 500)`. -/
inductive AttemptOutcome where
  | netFail : AttemptOutcome
  | resp : Nat → Str → AttemptOutcome
deriving DecidableEq, Repr

/-- `MAX_RETRIES` (`4khdhub.js:17`). -/
def MAX_RETRIES : Nat := 3

/-- The retry loop of `fetchText` (`4khdhub.js:64-77`): attempt `i`, return
the body when the status is in `[200, 500)`, otherwise sleep
`1000 * 2^i` ms and try again; the result records the returned body (or the
final `null`), the number of attempts made and the list of waits performed.
Note the loop also sleeps after its final failed attempt. -/
def fetchLoop (tries : Nat → AttemptOutcome) : Nat → Nat → Option Str × Nat × List Nat
  | _, 0 => (none, 0, [])
  | i, rem + 1 =>
    match tries i with
    | AttemptOutcome.resp s b =>
      if 200 ≤ s ∧ s < 500 then (some b, 1, [])
      else
        let r := fetchLoop tries (i + 1) rem
        (r.1, r.2.1 + 1, 1000 * 2 ^ i :: r.2.2)
    | AttemptOutcome.netFail =>
      let r := fetchLoop tries (i + 1) rem
      (r.1, r.2.1 + 1, 1000 * 2 ^ i :: r.2.2)

/-- `fetchText` over the per-attempt oracle of one URL. -/
def fetchTextModel (tries : Nat → AttemptOutcome) : Option Str × Nat × List Nat :=
  fetchLoop tries 0 MAX_RETRIES

/-! ### Cache keys (`4khdhub.js:164` and `:268`) -/

/-- The code's key normalisation `url.replace(/[^a-z0-9]/gi, "")`, written
as the source's per-character global regex replacement. -/
def stripNonAlnum : Str → Str
  | [] => []
  | c :: t => if isAlnumCode c then c :: stripNonAlnum t else stripNonAlnum t

/-- Redirect-stage cache key (`4khdhub.js:164`). -/
def redirectCacheKey (u : Str) : Str := S "redirect_v3_" ++ stripNonAlnum u

/-- Final-links-stage cache key (`4khdhub.js:268`). -/
def hubCacheKey (u : Str) : Str := S "hubcloud_v3_" ++ stripNonAlnum u

/-- Search-stage cache key (`4khdhub.js:112`): non-alphanumerics replaced
by underscores, then the year appended. -/
def searchCacheKey (name : Str) (year : Int) : Str :=
  S "search_v3_" ++ name.map (fun c => if isAlnumCode c then c else 95) ++ [95] ++ intToStr year

/-- An external key/value cache store (the `redisCache` collaborator),
modelled as an association list updated at the front. -/
def cachePut (store : List (Str × Str)) (k v : Str) : List (Str × Str) := (k, v) :: store

/-- Lookup in the modelled cache store. -/
def cacheGet (store : List (Str × Str)) (k : Str) : Option Str :=
  match store.find? (fun p => p.1 = k) with
  | some p => some p.2
  | none => none

/-! ### The pipeline environment

All I/O collaborators of the provider — the TMDB endpoint, the site's HTTP
responses (per-attempt, feeding the `fetchText` retry loop), cheerio's
parses of the fetched HTML, and the external cache store — are supplied as
oracle functions.  Cache writes (`saveToCache`) go to the external store
and are not observed by the pipeline itself, so they are not threaded. -/

/-- Raw TMDB payload fields used by `getTmdbDetails` (`4khdhub.js:83-107`);
`Except.error` models a thrown/rejected `axios.get`. -/
structure TmdbRaw where
  name : Str
  title : Str
  firstAir : Option Str
  release : Option Str
deriving DecidableEq, Repr

/-- One row of a content page (a `.download-item` or
`.episode-download-item` element): its inner HTML, the text of its
`.file-title, .episode-file-title` descendants, its full text (used by the
episode filter) and its `<a>` descendants. -/
structure Entry where
  localHtml : Str
  fileTitleText : Str
  fullText : Str
  anchors : List Anchor
deriving DecidableEq, Repr

/-- One `.episode-item` block: its `.episode-title` text and its
`.episode-download-item` rows (`4khdhub.js:384-395`). -/
structure EpisodeBlock where
  epTitle : Str
  downloadItems : List Entry
deriving DecidableEq, Repr

/-- Cheerio's view of a content page (`4khdhub.js:375-398`). -/
structure ContentDoc where
  episodeBlocks : List EpisodeBlock
  downloadItems : List Entry
deriving DecidableEq, Repr

/-- Cheerio's view of a final-links page (`4khdhub.js:302-305`): its
anchors, the `#size` element's text and the `<title>` text. -/
structure LinksPage where
  anchors : List Anchor
  sizeText : Str
  titleText : Str
deriving DecidableEq, Repr

/-- The oracle environment. -/
structure Env where
  tmdbRaw : Str → Str → Except Unit TmdbRaw
  attempts : Str → Nat → AttemptOutcome
  parseSearch : Str → List Card
  parseContent : Str → ContentDoc
  parseAnchors : Str → List Anchor
  parseLinks : Str → LinksPage
  cacheSearch : Str → Option Str
  cacheRedirect : Str → Option Str
  cacheHub : Str → Option (List Link)

/-- The body text `fetchText` eventually returns for a URL (after its
retry loop), `none` being the `null` returned when all attempts fail. -/
def netOf (env : Env) (url : Str) : Option Str := (fetchTextModel (env.attempts url)).1

/-- JS `try { x } catch (e) { return handler(e) }`: an exception inside
`x` is absorbed into a normal return value. -/
def tryCatchJs {α : Type} (x : Except Unit α) (handler : Unit → α) : Except Unit α :=
  match x with
  | Except.ok v => Except.ok v
  | Except.error e => Except.ok (handler e)

/-- Success test on the exception monad (`Except.error` = an exception
escaping to the caller). -/
def isOkE {α : Type} : Except Unit α → Bool
  | Except.ok _ => true
  | Except.error _ => false

/-- `type === 'series' || type === 'tv'` (`4khdhub.js:85`, `:366`). -/
def isSeriesOf (ty : Str) : Bool := ty == S "series" || ty == S "tv"

/-- Year extraction of `getTmdbDetails` (`4khdhub.js:95`, `:100`):
`date ? parseInt(date.split('-')[0]) : 0`; a `NaN` from a non-numeric date
is collapsed to 0 (no claim depends on that branch). -/
def yearOfDate (d : Option Str) : Int :=
  match d with
  | none => 0
  | some s => if s = [] then 0 else (parseIntJS (s.takeWhile (fun c => c ≠ 45))).getD 0

/-- `getTmdbDetails` (`4khdhub.js:83-107`): the whole body is wrapped in
`try/catch` and a failure returns `null`. -/
def getTmdbDetailsX (env : Env) (tmdbId ty : Str) : Except Unit (Option (Str × Int)) :=
  tryCatchJs
    (match env.tmdbRaw tmdbId ty with
     | Except.error er => Except.error er
     | Except.ok d =>
       if isSeriesOf ty then Except.ok (some (d.name, yearOfDate d.firstAir))
       else Except.ok (some (d.title, yearOfDate d.release)))
    (fun _ => none)

/-- UTF-8 bytes of one code point (for `encodeURIComponent`). -/
def utf8Bytes (c : Nat) : List Nat :=
  if c < 128 then [c]
  else if c < 2048 then [192 + c / 64, 128 + c % 64]
  else if c < 65536 then [224 + c / 4096, 128 + (c / 64) % 64, 128 + c % 64]
  else [240 + c / 262144, 128 + (c / 4096) % 64, 128 + (c / 64) % 64, 128 + c % 64]

/-- Uppercase hexadecimal digit. -/
def hexDigit (n : Nat) : Nat := if n < 10 then 48 + n else 55 + n

/-- Characters `encodeURIComponent` leaves unescaped. -/
def isUnreservedURI (c : Nat) : Bool :=
  isAlnumCode c || c = 45 || c = 95 || c = 46 || c = 33 || c = 126 || c = 42 ||
  c = 39 || c = 40 || c = 41

/-- Percent-encoding of one character. -/
def pctEncodeChar (c : Nat) : Str :=
  if isUnreservedURI c then [c]
  else (utf8Bytes c).foldr (fun b acc => 37 :: hexDigit (b / 16) :: hexDigit (b % 16) :: acc) []

/-- JS `encodeURIComponent` (`4khdhub.js:119`). -/
def encodeURIComponentJS (s : Str) : Str := s.foldr (fun c acc => pctEncodeChar c ++ acc) []

/-- `fetchPageUrl` (`4khdhub.js:111-161`): cache consult, the search fetch,
then the card-selection core `selectCard`.  The write of a positive result
back to the cache targets the external store. -/
def fetchPageUrlX (env : Env) (name : Str) (year : Int) (isSeries : Bool) :
    Except Unit (Option Str) :=
  match env.cacheSearch (searchCacheKey name year) with
  | some v => Except.ok (some v)
  | none =>
    match truthyS (netOf env (S "https://4khdhub.fans/?s=" ++
        encodeURIComponentJS (name ++ [32] ++ intToStr year))) with
    | none => Except.ok none
    | some html => Except.ok (selectCard (env.parseSearch html) name year isSeries)

/-- The `try` body of `resolveRedirectUrl` (`4khdhub.js:173-195`): token
extraction (no match returns `null`), the decode chain
`atob → atob → rot13 → atob`, `JSON.parse` (whose failure throws), the
truthiness test on the `o` field, and the final `atob`. -/
def decodeRedirectE (html : Str) : Except Unit (Option Str) :=
  match extractOToken html with
  | none => Except.ok none
  | some tok =>
    let step1 := atobJS tok
    let step2 := atobJS step1
    let step3 := rot13 step2
    let step4 := atobJS step3
    match jsonParseE step4 with
    | Except.error er => Except.error er
    | Except.ok obj =>
      match truthyS (jsonField obj (S "o")) with
      | some oVal => Except.ok (some (atobJS oVal))
      | none => Except.ok none

/-- `resolveRedirectUrl` (`4khdhub.js:163-200`): cache consult, fetch of
the redirect page, then the `try/catch`-wrapped decode; every failure path
returns `null`. -/
def resolveRedirectUrlX (env : Env) (url : Str) : Except Unit (Option Str) :=
  match env.cacheRedirect (redirectCacheKey url) with
  | some v => Except.ok (some v)
  | none =>
    match truthyS (netOf env url) with
    | none => Except.ok none
    | some html => tryCatchJs (decodeRedirectE html) (fun _ => none)

/-- The value `resolveRedirectUrl` actually resolves to (it never lets an
exception escape — `resolveRedirectUrlX` is always `ok`). -/
def resolveRedirectUrlM (env : Env) (url : Str) : Option Str :=
  match resolveRedirectUrlX env url with
  | Except.ok v => v
  | Except.error _ => none

/-- `$(el).find('a').filter(text-includes-label).attr('href')`
(`4khdhub.js:231-233`, `:241-243`, `:253`): the `href` of the first anchor
whose text contains the label. -/
def hubAnchorHref (anchors : List Anchor) (label : Str) : Option Str :=
  match (anchors.filter (fun a => containsSub a.text label)).head? with
  | some a => a.href
  | none => none

/-- The metadata object built at `4khdhub.js:204-228`. -/
def metaOf (e : Entry) : Meta :=
  let title := trimStr e.fileTitleText
  { bytes :=
      match extractSize e.localHtml with
      | some m => bytesParseOpt m
      | none => some 0,
    height := heightOf e.localHtml title,
    title := title }

/-- The per-row result of `extractSourceResults`
(`{url, meta, type}` at `4khdhub.js:237` and `:255`). -/
structure SourceResult where
  url : Option Str
  meta : Meta
  rtype : Str
deriving DecidableEq, Repr

/-- `extractSourceResults` (`4khdhub.js:203-262`): a `HubCloud` anchor, if
present, is committed to — its redirect is resolved and the row returns
`{url: resolved, ..., type: 'cloud'}` even when `resolved` is `null`; the
`HubDrive` path runs only when no truthy cloud `href` exists, resolving the
drive redirect, fetching that page and scanning it for a nested `HubCloud`
anchor whose raw `href` is returned with `type: 'drive'`. -/
def extractSourceResultsX (env : Env) (e : Entry) : Except Unit (Option SourceResult) :=
  let meta := metaOf e
  match truthyS (hubAnchorHref e.anchors (S "HubCloud")) with
  | some link =>
    match resolveRedirectUrlX env link with
    | Except.error er => Except.error er
    | Except.ok resolved => Except.ok (some ⟨resolved, meta, S "cloud"⟩)
  | none =>
    match truthyS (hubAnchorHref e.anchors (S "HubDrive")) with
    | some dlink =>
      match resolveRedirectUrlX env dlink with
      | Except.error er => Except.error er
      | Except.ok r =>
        match truthyS r with
        | some resolvedDrive =>
          match truthyS (netOf env resolvedDrive) with
          | some driveHtml =>
            match truthyS (hubAnchorHref (env.parseAnchors driveHtml) (S "HubCloud")) with
            | some inner => Except.ok (some ⟨some inner, meta, S "drive"⟩)
            | none => Except.ok none
          | none => Except.ok none
        | none => Except.ok none
    | none => Except.ok none

/-- `extractHubCloud` (`4khdhub.js:265-355`): cache consult, fetch of the
interstitial page, extraction of the `var url = ...` destination (the
meta-refresh pattern is computed but, as in the source, not acted on),
fetch of the final-links page, metadata override from `#size`/`<title>`,
and the anchor classification pass. -/
def extractHubCloudX (env : Env) (url : Str) (baseMeta : Meta) : Except Unit (List Link) :=
  if url = [] then Except.ok []
  else
    match env.cacheHub (hubCacheKey url) with
    | some v => Except.ok v
    | none =>
      match truthyS (netOf env url) with
      | none => Except.ok []
      | some html =>
        match extractVarUrl html with
        | none =>
          let _metaRefresh := extractMetaRefresh html
          Except.ok []
        | some finalUrl =>
          match truthyS (netOf env finalUrl) with
          | none => Except.ok []
          | some linksHtml =>
            let page := env.parseLinks linksHtml
            let titleText := trimStr (replaceFirst page.titleText (S " - HubCloud") [])
            let currentMeta : Meta :=
              { bytes :=
                  if page.sizeText = [] then baseMeta.bytes
                  else
                    match bytesParseOpt page.sizeText with
                    | some n => if n = 0 then baseMeta.bytes else some n
                    | none => baseMeta.bytes,
                height := baseMeta.height,
                title := if titleText = [] then baseMeta.title else titleText }
            Except.ok (extractLinks currentMeta page.anchors)

/-- Output record pushed to `results` (`4khdhub.js:419-428`). -/
structure StreamOut where
  name : Str
  title : Str
  url : Str
  quality : Option Str
  bingeGroup : Str
deriving DecidableEq, Repr

/-- Construction of one stream descriptor (`4khdhub.js:419-428`). -/
def mkStream (sr : SourceResult) (link : Link) : StreamOut :=
  { name := S "4KHDHub - " ++ link.source ++ [32] ++
      (if sr.meta.height ≠ 0 then natToStr sr.meta.height ++ [112] else []),
    title := link.meta.title ++ [10] ++ bytesFormat (link.meta.bytes.getD 0),
    url := link.url,
    quality := if sr.meta.height ≠ 0 then some (natToStr sr.meta.height ++ [112]) else none,
    bingeGroup := S "4khdhub-" ++ link.source }

/-- `processItem` (`4khdhub.js:411-434`): the row extraction and the hop
extraction, all wrapped in `try/catch`; a falsy row `url` contributes no
streams. -/
def processItemX (env : Env) (e : Entry) : Except Unit (List StreamOut) :=
  tryCatchJs
    (match extractSourceResultsX env e with
     | Except.error er => Except.error er
     | Except.ok sr? =>
       match sr? with
       | none => Except.ok []
       | some sr =>
         match truthyS sr.url with
         | none => Except.ok []
         | some u =>
           match extractHubCloudX env u sr.meta with
           | Except.error er => Except.error er
           | Except.ok links => Except.ok (links.map (mkStream sr)))
    (fun _ => [])

/-- `String(n).padStart(2, '0')`. -/
def pad2 (n : Nat) : Str := if n < 10 then 48 :: natToStr n else natToStr n

/-- JS truthiness of an optional number (`null` and 0 are falsy). -/
def truthyNum : Option Nat → Option Nat
  | some n => if n = 0 then none else some n
  | none => none

/-- Candidate-row selection (`4khdhub.js:377-398`): for series calls with a
truthy season and episode, the `.episode-download-item` rows of the
`.episode-item` blocks whose title contains `SNN`, filtered by an
`Episode-NN` or `ENN` marker; otherwise all `.download-item` rows. -/
def selectItems (doc : ContentDoc) (isSeries : Bool) (season episode : Option Nat) :
    List Entry :=
  match isSeries, truthyNum season, truthyNum episode with
  | true, some s, some ep =>
    let seasonStr := 83 :: pad2 s
    let episodeStr := S "Episode-" ++ pad2 ep
    let eStr := 69 :: pad2 ep
    (doc.episodeBlocks.filter (fun b => containsSub b.epTitle seasonStr)).foldr
      (fun b acc =>
        (b.downloadItems.filter
          (fun it => containsSub it.fullText episodeStr || containsSub it.fullText eStr)) ++ acc)
      []
  | _, _, _ => doc.downloadItems

/-- Aggregation of the per-row stream lists.  In the source the rows are
processed by the bounded worker pool (`runQueue`, modelled separately as a
transition system) and `results` collects contributions in completion
order; no claim concerns that order, so the aggregation is written
sequentially here. -/
def foldStreams (env : Env) : List Entry → Except Unit (List StreamOut)
  | [] => Except.ok []
  | e :: rest =>
    match processItemX env e with
    | Except.error er => Except.error er
    | Except.ok s =>
      match foldStreams env rest with
      | Except.error er => Except.error er
      | Except.ok r => Except.ok (s ++ r)

/-- `get4KHDHubStreams` (`4khdhub.js:359-456`), the top-level entry
point. -/
def get4KHDHubStreamsX (env : Env) (tmdbId ty : Str) (season episode : Option Nat) :
    Except Unit (List StreamOut) :=
  match getTmdbDetailsX env tmdbId ty with
  | Except.error er => Except.error er
  | Except.ok none => Except.ok []
  | Except.ok (some td) =>
    match fetchPageUrlX env td.1 td.2 (isSeriesOf ty) with
    | Except.error er => Except.error er
    | Except.ok page? =>
      match truthyS page? with
      | none => Except.ok []
      | some pageUrl =>
        match truthyS (netOf env pageUrl) with
        | none => Except.ok []
        | some html =>
          foldStreams env (selectItems (env.parseContent html) (isSeriesOf ty) season episode)

/-! ### The bounded worker pool (`runQueue`, `4khdhub.js:436-453`)

The event-loop behaviour of `runQueue` as a transition system.  A state
holds the not-yet-admitted queue (`queue` in the source), the in-flight
workers (`workers`), and the admission history.  Two kinds of step occur:

* *admit*: the loop body shifts the head of the queue and pushes its worker
  promise.  When `workers.length >= CONCURRENCY_LIMIT` the loop first
  `await`s `Promise.race(workers)`; each worker splices itself out of
  `workers` before it settles (`4khdhub.js:445-446`), so when the race
  continuation resumes fewer than `CONCURRENCY_LIMIT` workers remain —
  admission therefore only ever happens below the limit;
* *complete*: any in-flight worker settles and removes itself, possible at
  every `await` point of the loop. -/

/-- `CONCURRENCY_LIMIT` (`4khdhub.js:18`). -/
def CONCURRENCY_LIMIT : Nat := 5

/-- A scheduler state of `runQueue`. -/
structure RQState (α : Type) where
  pending : List α
  inflight : List α
  admitted : List α
deriving DecidableEq, Repr

/-- One scheduler step of `runQueue`. -/
inductive RQStep {α : Type} : RQState α → RQState α → Prop where
  | enter (x : α) (rest inflight admitted : List α) :
      inflight.length < CONCURRENCY_LIMIT →
      RQStep ⟨x :: rest, inflight, admitted⟩ ⟨rest, inflight ++ [x], admitted ++ [x]⟩
  | complete (pending l1 l2 : List α) (x : α) (admitted : List α) :
      RQStep ⟨pending, l1 ++ x :: l2, admitted⟩ ⟨pending, l1 ++ l2, admitted⟩

/-- Reachability along scheduler steps. -/
inductive RQReach {α : Type} : RQState α → RQState α → Prop where
  | refl (s : RQState α) : RQReach s s
  | step {s t u : RQState α} : RQStep s t → RQReach t u → RQReach s u

/-- The initial state: the full candidate list queued, nothing in flight
(`4khdhub.js:437`). -/
def rqInit {α : Type} (items : List α) : RQState α := ⟨items, [], []⟩

/-- An attempt that `fetchText` treats as failed: axios throws on a
network-level failure and, by `validateStatus`, on any response status
outside `[200, 500)`. -/
def attemptFails (t : Nat → AttemptOutcome) (i : Nat) : Prop :=
  match t i with
  | AttemptOutcome.netFail => True
  | AttemptOutcome.resp s _ => s < 200 ∨ 500 ≤ s

/-- Body returned when attempt `i` succeeds (status in `[200, 500)`). -/
def attemptBody (t : Nat → AttemptOutcome) (i : Nat) : Option Str :=
  match t i with
  | AttemptOutcome.resp s b => if 200 ≤ s ∧ s < 500 then some b else none
  | AttemptOutcome.netFail => none

/-- C8 counterexample oracle: the first attempt yields an HTTP 500
response (no network-level failure), the rest succeed. -/
def tRetryEx : Nat → AttemptOutcome := fun i =>
  if i = 0 then AttemptOutcome.resp 500 (S "err") else AttemptOutcome.resp 200 (S "ok")

/-- C8 counterexample oracle: every attempt yields an HTTP 500 response. -/
def tAllFailEx : Nat → AttemptOutcome := fun _ => AttemptOutcome.resp 500 (S "err")

/-- C5 test page: a redirect page that carries a meta-refresh tag with a
`url=` parameter but no `'o'` token pattern (it contains no single-quote
character at all). -/
def htmlC5 : Str :=
  S "<meta http-equiv=" ++ [34] ++ S "refresh" ++ [34] ++ S " content=" ++ [34] ++
  S "0;url=https://dest.example/go" ++ [34] ++ S ">"

/-- C5 test URL. -/
def urlC5 : Str := S "https://4khdhub.fans/r/77"

/-- C5 environment: the test URL serves the meta-refresh page; caches are
empty. -/
def envC5 : Env :=
  { tmdbRaw := fun _ _ => Except.error ()
    attempts := fun _ _ => AttemptOutcome.resp 200 htmlC5
    parseSearch := fun _ => []
    parseContent := fun _ => ⟨[], []⟩
    parseAnchors := fun _ => []
    parseLinks := fun _ => ⟨[], [], []⟩
    cacheSearch := fun _ => none
    cacheRedirect := fun _ => none
    cacheHub := fun _ => none }

/-- C6 witness cards: the first card's title is at distance 5 from the
target (rejected although its year matches); the second is accepted. -/
def cardsW : List Card :=
  [⟨[S "Movies"], S "2023", S "Xyzzy", some (S "/bad")⟩,
   ⟨[S "Movies"], S "2024", S "Up [4K]", some (S "/good")⟩]

/-- Deduplication order relation of the `Direct` branch: a later `Direct`
result never repeats the URL of any earlier result
(`!results.find(r => r.url === href)` at `4khdhub.js:340`). -/
def RDir (x y : Link) : Prop := y.source = S "Direct" → x.url ≠ y.url

/-- Provenance of one result from one anchor: the three labelled branches
of the classification loop. -/
def linkFromAnchor (meta : Meta) (a : Anchor) (r : Link) : Prop :=
  ∃ h, anchorHref a = some h ∧
    ((fslLabel a = true ∧ r = ⟨S "FSL", h, meta⟩) ∨
     (pixelLabel a = true ∧ r = ⟨S "PixelServer", cleanPixelUrl h, meta⟩) ∨
     (directLabel a = true ∧ r = ⟨S "Direct", h, meta⟩))

/-- C7 witness metadata. -/
def metaW7 : Meta := ⟨some 0, 1080, S "T"⟩

/-- C7 witness anchors: one FSL-labelled, one PixelServer-labelled with a
`/u/` path. -/
def anchorsW7 : List Anchor :=
  [⟨S " FSL Server ", some (S "https://f.ex/a"), none⟩,
   ⟨S "PixelServer", some (S "https://p.ex/u/abc"), none⟩]

/-- C9 witness entry: a row with both a `HubCloud` and a `HubDrive`
anchor. -/
def entryW9 : Entry :=
  ⟨S "<div>1080p</div>", S "Title", S "row",
   [⟨S "HubCloud", some (S "https://hub.ex/r1"), none⟩,
    ⟨S "HubDrive", some (S "https://hub.ex/d1"), none⟩]⟩

/-- C9 witness environment: every request fails at the network level, so
the cloud redirect resolves to `null`. -/
def envW9 : Env :=
  { tmdbRaw := fun _ _ => Except.error ()
    attempts := fun _ _ => AttemptOutcome.netFail
    parseSearch := fun _ => []
    parseContent := fun _ => ⟨[], []⟩
    parseAnchors := fun _ => []
    parseLinks := fun _ => ⟨[], [], []⟩
    cacheSearch := fun _ => none
    cacheRedirect := fun _ => none
    cacheHub := fun _ => none }

/-- The valid four-stage encoding of the wrapped object
`{"o": base64(destination)}` — the inverse of the decoder's forward chain
`atob, atob, rot13, atob` read stage by stage (innermost transform applied
first): base64-encode the JSON text, rot13 the result, then base64-encode
twice more. -/
def encodeToken (dest : Str) : Str :=
  b64encode (b64encode (rot13 (b64encode (jsonWrap (b64encode dest)))))

/-- C1 witness destination. -/
def destW1 : Str := S "https://hubcloud.ex/f/9"

/-- C1 witness page: the encoded token embedded in a script call. -/
def htmlW1 : Str :=
  S "<script>s(" ++ 39 :: 111 :: 39 :: 44 :: 39 :: (encodeToken destW1 ++ 39 :: S ");</script>")

/-- C1 witness URL. -/
def urlW1 : Str := S "https://4khdhub.fans/r/42"

/-- C1 witness environment: the redirect URL serves the encoded page. -/
def envW1 : Env :=
  { tmdbRaw := fun _ _ => Except.error ()
    attempts := fun u _ =>
      if u = urlW1 then AttemptOutcome.resp 200 htmlW1 else AttemptOutcome.netFail
    parseSearch := fun _ => []
    parseContent := fun _ => ⟨[], []⟩
    parseAnchors := fun _ => []
    parseLinks := fun _ => ⟨[], [], []⟩
    cacheSearch := fun _ => none
    cacheRedirect := fun _ => none
    cacheHub := fun _ => none }

/-! ## Theorems -/

theorem b64val_b64code : ∀ n : Nat, n < 64 → b64val (b64code n) = some n := by
  decide

theorem b64code_isB64Char : ∀ n : Nat, n < 64 → isB64Char (b64code n) = true := by
  decide

theorem b64encode_chars :
    ∀ bs : List Nat, (∀ b ∈ bs, b < 256) → ∀ c ∈ b64encode bs, isB64Char c = true := by
  intro bs
  induction bs using b64encode.induct with
  | case1 b1 b2 b3 rest ih =>
    intro hb c hc
    have h1 : b1 < 256 := hb b1 (by simp)
    have h2 : b2 < 256 := hb b2 (by simp)
    have h3 : b3 < 256 := hb b3 (by simp)
    simp only [b64encode, List.mem_cons] at hc
    rcases hc with h | h | h | h | h
    · exact h ▸ b64code_isB64Char _ (by omega)
    · exact h ▸ b64code_isB64Char _ (by omega)
    · exact h ▸ b64code_isB64Char _ (by omega)
    · exact h ▸ b64code_isB64Char _ (by omega)
    · exact ih (fun b hbm => hb b (by simp [hbm])) c h
  | case2 b1 b2 =>
    intro hb c hc
    have h1 : b1 < 256 := hb b1 (by simp)
    have h2 : b2 < 256 := hb b2 (by simp)
    simp only [b64encode, List.mem_cons, List.not_mem_nil, or_false] at hc
    rcases hc with h | h | h | h
    · exact h ▸ b64code_isB64Char _ (by omega)
    · exact h ▸ b64code_isB64Char _ (by omega)
    · exact h ▸ b64code_isB64Char _ (by omega)
    · simp [h, isB64Char]
  | case3 b1 =>
    intro hb c hc
    have h1 : b1 < 256 := hb b1 (by simp)
    simp only [b64encode, List.mem_cons, List.not_mem_nil, or_false] at hc
    rcases hc with h | h | h | h
    · exact h ▸ b64code_isB64Char _ (by omega)
    · exact h ▸ b64code_isB64Char _ (by omega)
    · simp [h, isB64Char]
    · simp [h, isB64Char]
  | case4 =>
    intro _ c hc
    simp [b64encode] at hc

theorem b64code_lt (n : Nat) : b64code n < 256 := by
  unfold b64code
  split
  · omega
  split
  · omega
  split
  · omega
  split
  · omega
  · omega

theorem b64code_ne_pad : ∀ n : Nat, n < 64 → b64code n ≠ 61 := by
  decide

/-- Round trip: decoding an encoded byte sequence recovers it exactly
(bytes below 256, as produced by latin-1 strings). -/
theorem b64decode_b64encode :
    ∀ bs : List Nat, (∀ b ∈ bs, b < 256) → b64decode (b64encode bs) = some bs := by
  intro bs
  induction bs using b64encode.induct with
  | case1 b1 b2 b3 rest ih =>
    intro hb
    have h1 : b1 < 256 := hb b1 (by simp)
    have h2 : b2 < 256 := hb b2 (by simp)
    have h3 : b3 < 256 := hb b3 (by simp)
    have e1 := b64val_b64code (b1 / 4) (by omega)
    have e2 := b64val_b64code ((b1 % 4) * 16 + b2 / 16) (by omega)
    have e3 := b64val_b64code ((b2 % 16) * 4 + b3 / 64) (by omega)
    have e4 := b64val_b64code (b3 % 64) (by omega)
    have p3 := b64code_ne_pad ((b2 % 16) * 4 + b3 / 64) (by omega)
    have p4 := b64code_ne_pad (b3 % 64) (by omega)
    have ihr : b64decode (b64encode rest) = some rest :=
      ih (fun b hbm => hb b (by simp [hbm]))
    rw [b64encode]
    rw [b64decode]
    rw [e1, e2]
    simp only [Option.bind_eq_bind, Option.some_bind]
    rw [if_neg p3, e3]
    simp only [Option.some_bind]
    rw [if_neg p4, e4]
    simp only [Option.some_bind]
    rw [ihr]
    simp only [Option.some_bind, Option.some.injEq]
    refine List.cons_eq_cons.mpr ⟨by omega, List.cons_eq_cons.mpr ⟨by omega, List.cons_eq_cons.mpr ⟨by omega, rfl⟩⟩⟩
  | case2 b1 b2 =>
    intro hb
    have h1 : b1 < 256 := hb b1 (by simp)
    have h2 : b2 < 256 := hb b2 (by simp)
    have e1 := b64val_b64code (b1 / 4) (by omega)
    have e2 := b64val_b64code ((b1 % 4) * 16 + b2 / 16) (by omega)
    have e3 := b64val_b64code ((b2 % 16) * 4) (by omega)
    have p3 := b64code_ne_pad ((b2 % 16) * 4) (by omega)
    rw [b64encode]
    rw [b64decode]
    rw [e1, e2]
    simp only [Option.bind_eq_bind, Option.some_bind]
    rw [if_neg p3, e3]
    simp only [Option.some_bind, if_true]
    simp only [Option.some.injEq]
    refine List.cons_eq_cons.mpr ⟨by omega, List.cons_eq_cons.mpr ⟨by omega, rfl⟩⟩
  | case3 b1 =>
    intro hb
    have h1 : b1 < 256 := hb b1 (by simp)
    have e1 := b64val_b64code (b1 / 4) (by omega)
    have e2 := b64val_b64code ((b1 % 4) * 16) (by omega)
    rw [b64encode]
    rw [b64decode]
    rw [e1, e2]
    simp only [Option.bind_eq_bind, Option.some_bind, if_true]
    simp only [Option.some.injEq]
    refine List.cons_eq_cons.mpr ⟨by omega, rfl⟩
  | case4 => intro _; rfl

theorem atobJS_b64encode (bs : List Nat) (h : ∀ b ∈ bs, b < 256) :
    atobJS (b64encode bs) = bs := by
  unfold atobJS
  rw [b64decode_b64encode bs h]
  rfl

theorem rot13c_rot13c (c : Nat) : rot13c (rot13c c) = c := by
  unfold rot13c
  split_ifs <;> omega

/-- rot13 is an involution (non-letters unchanged, case preserved). -/
theorem rot13_rot13 (s : Str) : rot13 (rot13 s) = s := by
  unfold rot13
  rw [List.map_map]
  have : rot13c ∘ rot13c = id := funext rot13c_rot13c
  rw [this, List.map_id]

theorem rot13c_lt (c : Nat) (h : c < 256) : rot13c c < 256 := by
  unfold rot13c
  split_ifs <;> omega

/-! ### Exception-absorption lemmas (toward claim C3) -/

theorem tryCatchJs_isOk {α : Type} (x : Except Unit α) (h : Unit → α) :
    isOkE (tryCatchJs x h) = true := by
  cases x <;> rfl

theorem getTmdbDetailsX_isOk (env : Env) (tmdbId ty : Str) :
    isOkE (getTmdbDetailsX env tmdbId ty) = true := by
  unfold getTmdbDetailsX
  exact tryCatchJs_isOk _ _

theorem fetchPageUrlX_isOk (env : Env) (name : Str) (year : Int) (isSeries : Bool) :
    isOkE (fetchPageUrlX env name year isSeries) = true := by
  unfold fetchPageUrlX
  split
  · rfl
  · split <;> rfl

theorem resolveRedirectUrlX_isOk (env : Env) (url : Str) :
    isOkE (resolveRedirectUrlX env url) = true := by
  unfold resolveRedirectUrlX
  split
  · rfl
  · split
    · rfl
    · exact tryCatchJs_isOk _ _

theorem extractSourceResultsX_isOk (env : Env) (e : Entry) :
    isOkE (extractSourceResultsX env e) = true := by
  unfold extractSourceResultsX
  split
  · rename_i link _
    have h := resolveRedirectUrlX_isOk env link
    split
    · rename_i heq; rw [heq] at h; exact absurd h (by simp [isOkE])
    · rfl
  · split
    · rename_i dlink _
      have h := resolveRedirectUrlX_isOk env dlink
      split
      · rename_i heq; rw [heq] at h; exact absurd h (by simp [isOkE])
      · split
        · split
          · split <;> rfl
          · rfl
        · rfl
    · rfl

theorem processItemX_isOk (env : Env) (e : Entry) :
    isOkE (processItemX env e) = true := by
  unfold processItemX
  exact tryCatchJs_isOk _ _

theorem foldStreams_isOk (env : Env) (items : List Entry) :
    isOkE (foldStreams env items) = true := by
  induction items with
  | nil => rfl
  | cons e rest ih =>
    unfold foldStreams
    have h := processItemX_isOk env e
    split
    · rename_i heq; rw [heq] at h; exact absurd h (by simp [isOkE])
    · split
      · rename_i heq; rw [heq] at ih; exact absurd ih (by simp [isOkE])
      · rfl

/-! ## Claim theorems -/

/-- C3: for every input (contentId, mediaKind, season, episode) and every
combination of internal failures supplied by the oracle environment
(metadata lookup failure, page not found, fetch failure, per-entry
extraction errors), the top-level entry point returns a (possibly empty or
partial) list and never lets an exception escape to its caller. -/
theorem c3_never_throws :
    ∀ (env : Env) (tmdbId ty : Str) (season episode : Option Nat),
      isOkE (get4KHDHubStreamsX env tmdbId ty season episode) = true := by
  intro env tmdbId ty season episode
  unfold get4KHDHubStreamsX
  have h1 := getTmdbDetailsX_isOk env tmdbId ty
  split
  · rename_i heq; rw [heq] at h1; exact absurd h1 (by simp [isOkE])
  · rfl
  · rename_i td heq
    have h2 := fetchPageUrlX_isOk env td.1 td.2 (isSeriesOf ty)
    split
    · rename_i heq2; rw [heq2] at h2; exact absurd h2 (by simp [isOkE])
    · split
      · rfl
      · split
        · rfl
        · exact foldStreams_isOk env _

/-- Invariant preservation of one `runQueue` scheduler step: the in-flight
count stays at or below the limit and admissions consume the queue from
its head. -/
theorem rqStep_inv {α : Type} (items : List α) {s t : RQState α} (h : RQStep s t)
    (hlen : s.inflight.length ≤ CONCURRENCY_LIMIT)
    (hadm : s.admitted ++ s.pending = items) :
    t.inflight.length ≤ CONCURRENCY_LIMIT ∧ t.admitted ++ t.pending = items := by
  cases h with
  | enter x rest inflight admitted hlt =>
    refine ⟨?_, ?_⟩
    · simp only [List.length_append, List.length_cons, List.length_nil]
      omega
    · simp only at hadm ⊢
      rw [List.append_assoc]
      simpa using hadm
  | complete pending l1 l2 x admitted =>
    refine ⟨?_, hadm⟩
    simp only [List.length_append, List.length_cons] at hlen ⊢
    omega

/-- Invariant propagation along reachability. -/
theorem rqReach_inv {α : Type} (items : List α) {s u : RQState α} (h : RQReach s u)
    (hlen : s.inflight.length ≤ CONCURRENCY_LIMIT)
    (hadm : s.admitted ++ s.pending = items) :
    u.inflight.length ≤ CONCURRENCY_LIMIT ∧ u.admitted ++ u.pending = items := by
  induction h with
  | refl s => exact ⟨hlen, hadm⟩
  | step hstep _ ih =>
    have := rqStep_inv items hstep hlen hadm
    exact ih this.1 this.2

/-- C2: in every state the `runQueue` scheduler reaches from an initial
queue of candidate entries, at most `CONCURRENCY_LIMIT = 5` resolutions are
in flight; the entries admitted so far followed by the remaining queue are
exactly the original candidates in order (admission always takes the next
queued entry); and from a state with a full window no step can admit — only
a completion can change the state, so admission is suspended until an
in-flight resolution finishes. -/
theorem c2_concurrency_cap :
    ∀ (α : Type) (items : List α) (s : RQState α), RQReach (rqInit items) s →
      s.inflight.length ≤ CONCURRENCY_LIMIT ∧
      s.admitted ++ s.pending = items ∧
      (∀ t : RQState α, s.inflight.length = CONCURRENCY_LIMIT → RQStep s t →
        t.admitted = s.admitted ∧ t.inflight.length < s.inflight.length) := by
  intro α items s h
  have hinv := rqReach_inv items h (by simp [rqInit]) (by simp [rqInit])
  refine ⟨hinv.1, hinv.2, ?_⟩
  intro t hfull hstep
  cases hstep with
  | enter x rest inflight admitted hlt =>
    exact absurd hfull (by simp only at hfull ⊢; omega)
  | complete pending l1 l2 x admitted =>
    refine ⟨rfl, ?_⟩
    simp only [List.length_append, List.length_cons]
    omega

/-- C2 witness: a concrete reachable state with a full window, obtained by
admitting five of seven queued items. -/
theorem c2_concurrency_cap_witness :
    (RQState.mk [6, 7] [1, 2, 3, 4, 5] [1, 2, 3, 4, 5] : RQState Nat).inflight.length ≤
        CONCURRENCY_LIMIT ∧
      ([1, 2, 3, 4, 5] : List Nat) ++ [6, 7] = [1, 2, 3, 4, 5, 6, 7] ∧
      (∀ t : RQState Nat,
        (RQState.mk [6, 7] [1, 2, 3, 4, 5] [1, 2, 3, 4, 5] : RQState Nat).inflight.length =
          CONCURRENCY_LIMIT →
        RQStep (RQState.mk [6, 7] [1, 2, 3, 4, 5] [1, 2, 3, 4, 5]) t →
        t.admitted = (RQState.mk [6, 7] [1, 2, 3, 4, 5] [1, 2, 3, 4, 5] : RQState Nat).admitted ∧
        t.inflight.length <
          (RQState.mk [6, 7] [1, 2, 3, 4, 5] [1, 2, 3, 4, 5] : RQState Nat).inflight.length) :=
  c2_concurrency_cap Nat [1, 2, 3, 4, 5, 6, 7] _
    (RQReach.step (RQStep.enter 1 [2, 3, 4, 5, 6, 7] [] [] (by decide))
      (RQReach.step (RQStep.enter 2 [3, 4, 5, 6, 7] [1] [1] (by decide))
        (RQReach.step (RQStep.enter 3 [4, 5, 6, 7] [1, 2] [1, 2] (by decide))
          (RQReach.step (RQStep.enter 4 [5, 6, 7] [1, 2, 3] [1, 2, 3] (by decide))
            (RQReach.step (RQStep.enter 5 [6, 7] [1, 2, 3, 4] [1, 2, 3, 4] (by decide))
              (RQReach.refl _))))))

/-- C10: the redirect- and final-links-stage cache keys normalise the URL
by deleting every non-alphanumeric character (the per-character regex
replacement equals a filter); the normalisation is not injective — two
distinct URLs differing only in `/`, `-`, `.` placement share both cache
keys — and a cache entry stored under one URL's key is returned when the
other URL is looked up. -/
theorem c10_cache_key_collision :
    (∀ u : Str, stripNonAlnum u = u.filter (fun c => isAlnumCode c)) ∧
    S "https://a-b.com/x" ≠ S "https://ab.co/mx" ∧
    redirectCacheKey (S "https://a-b.com/x") = redirectCacheKey (S "https://ab.co/mx") ∧
    hubCacheKey (S "https://a-b.com/x") = hubCacheKey (S "https://ab.co/mx") ∧
    cacheGet (cachePut [] (redirectCacheKey (S "https://a-b.com/x")) (S "https://dest.example/f"))
        (redirectCacheKey (S "https://ab.co/mx")) =
      some (S "https://dest.example/f") := by
  refine ⟨?_, by decide, by decide, by decide, by decide⟩
  intro u
  induction u with
  | nil => rfl
  | cons c t ih =>
    simp only [stripNonAlnum, List.filter_cons]
    split
    · rw [ih]
    · exact ih

theorem fetchLoop_fail_step (t : Nat → AttemptOutcome) (i rem : Nat)
    (h : attemptFails t i) :
    fetchLoop t i (rem + 1) =
      ((fetchLoop t (i + 1) rem).1, (fetchLoop t (i + 1) rem).2.1 + 1,
       1000 * 2 ^ i :: (fetchLoop t (i + 1) rem).2.2) := by
  unfold attemptFails at h
  conv_lhs => rw [fetchLoop]
  cases ht : t i with
  | netFail => rfl
  | resp s b =>
    rw [ht] at h
    dsimp only at h ⊢
    rw [if_neg (by omega)]

theorem fetchLoop_success (t : Nat → AttemptOutcome) (i rem : Nat) (b : Str)
    (hb : attemptBody t i = some b) :
    fetchLoop t i (rem + 1) = (some b, 1, []) := by
  unfold attemptBody at hb
  conv_lhs => rw [fetchLoop]
  cases ht : t i with
  | netFail =>
    rw [ht] at hb
    simp at hb
  | resp s body =>
    rw [ht] at hb
    dsimp only at hb ⊢
    by_cases hs : 200 ≤ s ∧ s < 500
    · rw [if_pos hs] at hb ⊢
      injection hb with hb1
      rw [hb1]
    · rw [if_neg hs] at hb; exact absurd hb (by simp)

theorem fetchLoop_count (t : Nat → AttemptOutcome) :
    ∀ rem i, (fetchLoop t i rem).2.1 ≤ rem := by
  intro rem
  induction rem with
  | zero => intro i; rfl
  | succ n ih =>
    intro i
    conv_lhs => rw [fetchLoop]
    cases ht : t i with
    | netFail =>
      have := ih (i + 1)
      dsimp only
      omega
    | resp s b =>
      dsimp only
      by_cases hs : 200 ≤ s ∧ s < 500
      · rw [if_pos hs]
        dsimp only
        omega
      · rw [if_neg hs]
        have := ih (i + 1)
        dsimp only
        omega

/-- C8 counterexample: the claim says `fetchText` "retries only on
network-level failure", but with no network failure anywhere — attempt 1
returning an HTTP 500 response and attempt 2 an HTTP 200 — the loop makes
two attempts (a retry happened) and sleeps 1 s in between.  Moreover, when
all three attempts fail the loop performs three waits (1 s, 2 s, 4 s): the
4 s wait follows the final attempt, after which no further attempt occurs,
so the waits are not all "between attempts". -/
theorem c8_counterexample :
    (tRetryEx 0 ≠ AttemptOutcome.netFail ∧ tRetryEx 1 ≠ AttemptOutcome.netFail ∧
      tRetryEx 2 ≠ AttemptOutcome.netFail) ∧
    fetchTextModel tRetryEx = (some (S "ok"), 2, [1000]) ∧
    fetchTextModel tAllFailEx = (none, 3, [1000, 2000, 4000]) := by
  refine ⟨⟨by decide, by decide, by decide⟩, by decide, by decide⟩

/-- C8 (amended): for every URL, `fetchText` attempts the request at most
3 times; it retries on network-level failure or on any response with
status outside `[200, 500)`, sleeping 1 s, 2 s, 4 s after failed attempts
1, 2, 3 respectively (the 4 s sleep follows the third failure even though
no further attempt is made); any response with status in `[200, 500)` is a
success whose body is returned (even 4xx); and after all 3 attempts fail
it returns an explicit `null` without throwing. -/
theorem c8_amended :
    ∀ t : Nat → AttemptOutcome,
      (fetchTextModel t).2.1 ≤ MAX_RETRIES ∧
      (∀ i b, i < MAX_RETRIES → (∀ j, j < i → attemptFails t j) → attemptBody t i = some b →
        fetchTextModel t = (some b, i + 1, (List.range i).map (fun j => 1000 * 2 ^ j))) ∧
      ((∀ i, i < MAX_RETRIES → attemptFails t i) →
        fetchTextModel t = (none, MAX_RETRIES, [1000, 2000, 4000])) := by
  intro t
  refine ⟨fetchLoop_count t MAX_RETRIES 0, ?_, ?_⟩
  · intro i b hi hprev hb
    unfold fetchTextModel
    have hi3 : i < 3 := hi
    interval_cases i
    · rw [show MAX_RETRIES = 2 + 1 from rfl, fetchLoop_success t 0 2 b hb]
      rfl
    · rw [show MAX_RETRIES = 2 + 1 from rfl,
        fetchLoop_fail_step t 0 2 (hprev 0 (by omega)),
        show (2 : Nat) = 1 + 1 from rfl,
        fetchLoop_success t 1 1 b hb]
      simp
      decide
    · rw [show MAX_RETRIES = 2 + 1 from rfl,
        fetchLoop_fail_step t 0 2 (hprev 0 (by omega)),
        show (2 : Nat) = 1 + 1 from rfl,
        fetchLoop_fail_step t 1 1 (hprev 1 (by omega)),
        show (1 : Nat) = 0 + 1 from rfl,
        fetchLoop_success t 2 0 b hb]
      simp
      decide
  · intro hall
    unfold fetchTextModel
    rw [show MAX_RETRIES = 2 + 1 from rfl,
      fetchLoop_fail_step t 0 2 (hall 0 (by simp [MAX_RETRIES])),
      show (2 : Nat) = 1 + 1 from rfl,
      fetchLoop_fail_step t 1 1 (hall 1 (by simp [MAX_RETRIES])),
      show (1 : Nat) = 0 + 1 from rfl,
      fetchLoop_fail_step t 2 0 (hall 2 (by simp [MAX_RETRIES]))]
    simp [fetchLoop, MAX_RETRIES]

/-- C8 witness: the amended characterisation applied to the oracle that
fails with HTTP 500 once and then succeeds. -/
theorem c8_amended_witness :
    (fetchTextModel tRetryEx).2.1 ≤ MAX_RETRIES ∧
      fetchTextModel tRetryEx = (some (S "ok"), 1 + 1, (List.range 1).map (fun j => 1000 * 2 ^ j)) :=
  ⟨(c8_amended tRetryEx).1,
   (c8_amended tRetryEx).2.1 1 (S "ok") (by decide)
     (fun j hj => by
       interval_cases j
       exact Or.inr (by norm_num))
     (by decide)⟩

/-- C4 counterexample: an entry row whose HTML contains `576p` produces a
height of 576, which is none of 0/480/720/1080/2160 — the claimed
invariant "always 0 or a canonical bucket" fails, because the regex path
`parseInt(localHtml.match(/\d{3,4}p/i)[0])` keeps any 3-4 digit value. -/
theorem c4_counterexample :
    heightOf (S "File 576p x") [] = 576 ∧
    ¬(576 = 0 ∨ 576 = 480 ∨ 576 = 720 ∨ 576 = 1080 ∨ 576 = 2160) :=
  ⟨by decide, by decide⟩

/-- C4 (amended): the computed height is 0, one of the canonical buckets
480/720/1080/2160, or the numeric value of the leftmost `\d{3,4}p` token of
the row HTML (else of the title) — which need not be canonical; and on the
specific markers the claim lists, the height is 2160 for `2160p`, 2160 for
`4K`, 1080 for `1080p`, 720 for `720p`, 480 for `480p`, and 0 when no
marker is present. -/
theorem c4_amended :
    (∀ localHtml title : Str,
      heightOf localHtml title = 0 ∨ heightOf localHtml title = 480 ∨
      heightOf localHtml title = 720 ∨ heightOf localHtml title = 1080 ∨
      heightOf localHtml title = 2160 ∨
      (∃ m, (firstMatch34 localHtml = some m ∨
             (firstMatch34 localHtml = none ∧ firstMatch34 title = some m)) ∧
        heightOf localHtml title = digitsVal m)) ∧
    heightOf (S "x 2160p y") [] = 2160 ∧
    heightOf (S "UHD 4K") [] = 2160 ∧
    heightOf [] (S "Movie 1080p") = 1080 ∧
    heightOf (S "a 720p b") [] = 720 ∧
    heightOf [] (S "c 480p d") = 480 ∧
    heightOf (S "no marker here") (S "none") = 0 := by
  refine ⟨?_, by decide, by decide, by decide, by decide, by decide, by decide⟩
  intro lh t
  unfold heightOf
  cases h1 : firstMatch34 lh with
  | some m =>
    dsimp only
    by_cases hz : digitsVal m = 0
    · rw [if_pos hz]
      split_ifs <;> simp
    · rw [if_neg hz]
      exact Or.inr (Or.inr (Or.inr (Or.inr (Or.inr ⟨m, Or.inl rfl, rfl⟩))))
  | none =>
    cases h2 : firstMatch34 t with
    | some m =>
      dsimp only
      by_cases hz : digitsVal m = 0
      · rw [if_pos hz]
        split_ifs <;> simp
      · rw [if_neg hz]
        exact Or.inr (Or.inr (Or.inr (Or.inr (Or.inr ⟨m, Or.inr ⟨rfl, rfl⟩, rfl⟩))))
    | none =>
      dsimp only
      rw [if_pos rfl]
      split_ifs <;> simp

/-- C5 counterexample: on a page whose primary `'o'` pattern is absent but
which carries a meta-refresh tag with `url=https://dest.example/go`,
`resolveRedirectUrl` returns `null` — not the meta-refresh URL the claim
promises.  (`4khdhub.js:163-200` contains no meta-refresh handling; the
pattern is only matched — and merely logged — in `extractHubCloud`,
`4khdhub.js:283-293`.) -/
theorem c5_counterexample :
    extractMetaRefresh htmlC5 = some (S "https://dest.example/go") ∧
    extractOToken htmlC5 = none ∧
    resolveRedirectUrlM envC5 urlC5 = none :=
  ⟨by decide, by decide, by decide⟩

/-- C5 (amended): when the primary `'o'` token pattern is absent,
`resolveRedirectUrl` returns `null` regardless of any meta-refresh tag in
the page; the meta-refresh pattern is only detected in `extractHubCloud`,
which logs it and still returns the empty list when the `var url`
destination pattern is missing. -/
theorem c5_amended :
    ∀ (env : Env) (url html : Str) (meta : Meta),
      env.cacheRedirect (redirectCacheKey url) = none →
      env.cacheHub (hubCacheKey url) = none →
      netOf env url = some html → html ≠ [] →
      extractOToken html = none →
      extractVarUrl html = none →
      resolveRedirectUrlM env url = none ∧
      extractHubCloudX env url meta = Except.ok [] := by
  intro env url html meta hcr hch hnet hne hot hvu
  constructor
  · unfold resolveRedirectUrlM resolveRedirectUrlX
    rw [hcr, hnet]
    rw [show truthyS (some html) = some html from by simp [truthyS, hne]]
    dsimp only
    unfold decodeRedirectE
    rw [hot]
    rfl
  · unfold extractHubCloudX
    by_cases hu : url = []
    · rw [if_pos hu]
    · rw [if_neg hu, hch, hnet]
      rw [show truthyS (some html) = some html from by simp [truthyS, hne]]
      dsimp only
      rw [hvu]

/-- C5 witness: the amended statement applied to the concrete meta-refresh
page and environment. -/
theorem c5_amended_witness :
    resolveRedirectUrlM envC5 urlC5 = none ∧
    extractHubCloudX envC5 urlC5 ⟨some 0, 0, []⟩ = Except.ok [] :=
  c5_amended envC5 urlC5 htmlC5 ⟨some 0, 0, []⟩ rfl rfl (by decide) (by decide)
    (by decide) (by decide)

theorem headSomeMem {α : Type} {l : List α} {a : α} (h : l.head? = some a) : a ∈ l := by
  cases l with
  | nil => simp at h
  | cons x t =>
    simp only [List.head?_cons, Option.some.injEq] at h
    rw [← h]
    exact List.mem_cons_self x t

/-- C6: `fetchPageUrl` returns the first search-result card, in document
order, among exactly those that (a) carry the requested kind label, (b)
declare a year within ±1 of the target and (c) have edit distance below 5
between their bracket-stripped title and the target — the three cheerio
filters compose into the specification's acceptance predicate, and the
selected URL always comes from an accepting card.  (Cards are assumed to
carry an `href`, as every card anchor on a results page does; jQuery
`.map` would silently drop one without.) -/
theorem c6_first_matching_card :
    ∀ (cards : List Card) (name : Str) (year : Int) (isSeries : Bool),
      (∀ c ∈ cards, c.href.isSome = true) →
      selectCard cards name year isSeries =
        ((cards.filter (specCardAccept name year isSeries)).head?).map
          (fun c => absolutizeHref (c.href.getD [])) ∧
      (∀ u, selectCard cards name year isSeries = some u →
        ∃ c ∈ cards, specCardAccept name year isSeries c = true ∧
          u = absolutizeHref (c.href.getD [])) := by
  intro cards name year isSeries hhref
  have hfil :
      ((cards.filter (cardKindOk (if isSeries then S "Series" else S "Movies"))).filter
        (cardYearOk year)).filter (cardTitleOk name) =
      cards.filter (specCardAccept name year isSeries) := by
    rw [List.filter_filter, List.filter_filter]
    exact List.filter_congr (fun a _ => by
      unfold specCardAccept
      cases cardKindOk (if isSeries then S "Series" else S "Movies") a <;>
        cases cardYearOk year a <;> cases cardTitleOk name a <;> rfl)
  have hmap : ∀ l : List Card, (∀ c ∈ l, c.href.isSome = true) →
      l.filterMap (fun c => c.href.map absolutizeHref) =
      l.map (fun c => absolutizeHref (c.href.getD [])) := by
    intro l hl
    induction l with
    | nil => rfl
    | cons c t ih =>
      have hc := hl c (by simp)
      obtain ⟨h, hh⟩ := Option.isSome_iff_exists.mp hc
      simp only [List.filterMap_cons, List.map_cons, hh, Option.map_some']
      rw [ih (fun x hx => hl x (by simp [hx]))]
      simp [hh]
  have main : selectCard cards name year isSeries =
      ((cards.filter (specCardAccept name year isSeries)).head?).map
        (fun c => absolutizeHref (c.href.getD [])) := by
    unfold selectCard
    dsimp only
    rw [hfil]
    rw [hmap (cards.filter (specCardAccept name year isSeries))
        (fun c hc => hhref c (List.mem_of_mem_filter hc))]
    rw [List.head?_map]
  refine ⟨main, ?_⟩
  intro u hu
  rw [main] at hu
  obtain ⟨c, hc1, hc2⟩ := Option.map_eq_some'.mp hu
  have hmem := headSomeMem hc1
  exact ⟨c, List.mem_of_mem_filter hmem, (List.mem_filter.mp hmem).2, hc2.symm⟩

/-- C6 witness: on the concrete cards the selection skips the
distance-5 card and returns the accepted card's absolutised URL. -/
theorem c6_first_matching_card_witness :
    selectCard cardsW (S "Up") 2023 false = some (S "https://4khdhub.fans/good") := by
  have h := (c6_first_matching_card cardsW (S "Up") 2023 false (by decide)).1
  rw [h]
  decide

theorem classifyAnchor_mem_mono (meta : Meta) (acc : List Link) (a : Anchor) :
    ∀ r ∈ acc, r ∈ classifyAnchor meta acc a := by
  intro r hr
  unfold classifyAnchor
  split
  · exact hr
  · split_ifs <;> simp [hr]

theorem foldlClassify_mono (meta : Meta) :
    ∀ (l : List Anchor) (acc : List Link) (r : Link), r ∈ acc →
      r ∈ l.foldl (classifyAnchor meta) acc := by
  intro l
  induction l with
  | nil => intro acc r hr; exact hr
  | cons a t ih =>
    intro acc r hr
    exact ih _ r (classifyAnchor_mem_mono meta acc a r hr)

theorem foldlClassify_fsl (meta : Meta) :
    ∀ (l : List Anchor) (acc : List Link) (a : Anchor) (h : Str),
      a ∈ l → anchorHref a = some h → fslLabel a = true →
      Link.mk (S "FSL") h meta ∈ l.foldl (classifyAnchor meta) acc := by
  intro l
  induction l with
  | nil => intro acc a h ha; simp at ha
  | cons x t ih =>
    intro acc a h ha hhref hfsl
    rcases List.mem_cons.mp ha with heq | hat
    · subst heq
      rw [List.foldl_cons]
      have hcl : classifyAnchor meta acc a = acc ++ [⟨S "FSL", h, meta⟩] := by
        unfold classifyAnchor
        rw [hhref]
        simp [hfsl]
      rw [hcl]
      exact foldlClassify_mono meta t _ _ (by simp)
    · exact ih _ a h hat hhref hfsl

theorem foldlClassify_pixel (meta : Meta) :
    ∀ (l : List Anchor) (acc : List Link) (a : Anchor) (h : Str),
      a ∈ l → anchorHref a = some h → fslLabel a = false → pixelLabel a = true →
      Link.mk (S "PixelServer") (cleanPixelUrl h) meta ∈ l.foldl (classifyAnchor meta) acc := by
  intro l
  induction l with
  | nil => intro acc a h ha; simp at ha
  | cons x t ih =>
    intro acc a h ha hhref hfsl hpix
    rcases List.mem_cons.mp ha with heq | hat
    · subst heq
      rw [List.foldl_cons]
      have hcl : classifyAnchor meta acc a = acc ++ [⟨S "PixelServer", cleanPixelUrl h, meta⟩] := by
        unfold classifyAnchor
        rw [hhref]
        simp [hfsl, hpix]
      rw [hcl]
      exact foldlClassify_mono meta t _ _ (by simp)
    · exact ih _ a h hat hhref hfsl hpix

theorem classifyAnchor_pairwise (meta : Meta) (acc : List Link) (a : Anchor)
    (hp : List.Pairwise RDir acc) : List.Pairwise RDir (classifyAnchor meta acc a) := by
  unfold classifyAnchor
  split
  · exact hp
  · rename_i h _
    split_ifs with h1 h2 h3 h4
    · rw [List.pairwise_append]
      refine ⟨hp, by simp, ?_⟩
      intro x _ y hy
      simp only [List.mem_singleton] at hy
      subst hy
      intro hsrc
      have hs : S "FSL" = S "Direct" := hsrc
      exact absurd hs (by decide)
    · rw [List.pairwise_append]
      refine ⟨hp, by simp, ?_⟩
      intro x _ y hy
      simp only [List.mem_singleton] at hy
      subst hy
      intro hsrc
      have hs : S "PixelServer" = S "Direct" := hsrc
      exact absurd hs (by decide)
    · exact hp
    · rw [List.pairwise_append]
      refine ⟨hp, by simp, ?_⟩
      intro x hx y hy
      simp only [List.mem_singleton] at hy
      subst hy
      intro _
      simp only [List.any_eq_true, decide_eq_true_eq, not_exists, not_and] at h4
      exact fun hurl => h4 x hx hurl
    · exact hp

theorem foldlClassify_pairwise (meta : Meta) :
    ∀ (l : List Anchor) (acc : List Link), List.Pairwise RDir acc →
      List.Pairwise RDir (l.foldl (classifyAnchor meta) acc) := by
  intro l
  induction l with
  | nil => intro acc hp; exact hp
  | cons a t ih =>
    intro acc hp
    exact ih _ (classifyAnchor_pairwise meta acc a hp)

theorem classifyAnchor_provenance (meta : Meta) (acc : List Link) (a : Anchor) :
    ∀ r ∈ classifyAnchor meta acc a, r ∈ acc ∨ linkFromAnchor meta a r := by
  intro r hr
  unfold classifyAnchor at hr
  split at hr
  · exact Or.inl hr
  · rename_i h hh
    split_ifs at hr with h1 h2 h3 h4
    · rcases List.mem_append.mp hr with hm | hm
      · exact Or.inl hm
      · simp only [List.mem_singleton] at hm
        exact Or.inr ⟨h, hh, Or.inl ⟨h1, hm⟩⟩
    · rcases List.mem_append.mp hr with hm | hm
      · exact Or.inl hm
      · simp only [List.mem_singleton] at hm
        exact Or.inr ⟨h, hh, Or.inr (Or.inl ⟨h2, hm⟩)⟩
    · exact Or.inl hr
    · rcases List.mem_append.mp hr with hm | hm
      · exact Or.inl hm
      · simp only [List.mem_singleton] at hm
        exact Or.inr ⟨h, hh, Or.inr (Or.inr ⟨h3, hm⟩)⟩
    · exact Or.inl hr

theorem foldlClassify_provenance (meta : Meta) :
    ∀ (l : List Anchor) (acc : List Link), ∀ r ∈ l.foldl (classifyAnchor meta) acc,
      r ∈ acc ∨ ∃ a ∈ l, linkFromAnchor meta a r := by
  intro l
  induction l with
  | nil => intro acc r hr; exact Or.inl hr
  | cons x t ih =>
    intro acc r hr
    rcases ih _ r hr with hm | ⟨a, ha, hla⟩
    · rcases classifyAnchor_provenance meta acc x r hm with hm2 | hla
      · exact Or.inl hm2
      · exact Or.inr ⟨x, by simp, hla⟩
    · exact Or.inr ⟨a, by simp [ha], hla⟩

theorem foldlClassify_nolabel (meta : Meta) :
    ∀ (l : List Anchor) (acc : List Link),
      (∀ a ∈ l, anchorHref a = none ∨
        (fslLabel a = false ∧ pixelLabel a = false ∧ directLabel a = false)) →
      l.foldl (classifyAnchor meta) acc = acc := by
  intro l
  induction l with
  | nil => intro acc _; rfl
  | cons x t ih =>
    intro acc hl
    rw [List.foldl_cons]
    have hx : classifyAnchor meta acc x = acc := by
      rcases hl x (by simp) with hn | ⟨hf, hp, hd⟩
      · unfold classifyAnchor
        rw [hn]
      · unfold classifyAnchor
        split
        · rfl
        · simp [hf, hp, hd]
    rw [hx]
    exact ih acc (fun a ha => hl a (by simp [ha]))

/-- C7: on a final-links page, each anchor is classified by its label —
an FSL-labelled anchor contributes a result with its `href` unchanged, a
PixelServer/Fast-Server-labelled anchor contributes its `href` with the
first `/u/` segment rewritten to `/api/file/`, a `Direct` result never
repeats the URL of any earlier result, anchors matching no label produce
nothing, and every result originates from some anchor through one of the
three branches. -/
theorem c7_anchor_classification :
    ∀ (meta : Meta) (anchors : List Anchor),
      (∀ a ∈ anchors, ∀ h, anchorHref a = some h → fslLabel a = true →
        Link.mk (S "FSL") h meta ∈ extractLinks meta anchors) ∧
      (∀ a ∈ anchors, ∀ h, anchorHref a = some h → fslLabel a = false → pixelLabel a = true →
        Link.mk (S "PixelServer") (cleanPixelUrl h) meta ∈ extractLinks meta anchors) ∧
      List.Pairwise RDir (extractLinks meta anchors) ∧
      ((∀ a ∈ anchors, anchorHref a = none ∨
         (fslLabel a = false ∧ pixelLabel a = false ∧ directLabel a = false)) →
        extractLinks meta anchors = []) ∧
      (∀ r ∈ extractLinks meta anchors, ∃ a ∈ anchors, linkFromAnchor meta a r) := by
  intro meta anchors
  refine ⟨?_, ?_, ?_, ?_, ?_⟩
  · intro a ha h hh hf
    exact foldlClassify_fsl meta anchors [] a h ha hh hf
  · intro a ha h hh hf hp
    exact foldlClassify_pixel meta anchors [] a h ha hh hf hp
  · exact foldlClassify_pairwise meta anchors [] List.Pairwise.nil
  · intro hl
    exact foldlClassify_nolabel meta anchors [] hl
  · intro r hr
    rcases foldlClassify_provenance meta anchors [] r hr with hm | he
    · simp at hm
    · exact he

/-- C7 witness: the FSL anchor's URL survives unchanged and the
PixelServer anchor's URL is rewritten to `/api/file/`. -/
theorem c7_anchor_classification_witness :
    Link.mk (S "FSL") (S "https://f.ex/a") metaW7 ∈ extractLinks metaW7 anchorsW7 ∧
    Link.mk (S "PixelServer") (S "https://p.ex/api/file/abc") metaW7 ∈
      extractLinks metaW7 anchorsW7 := by
  constructor
  · exact (c7_anchor_classification metaW7 anchorsW7).1
      ⟨S " FSL Server ", some (S "https://f.ex/a"), none⟩ (by decide)
      (S "https://f.ex/a") (by decide) (by decide)
  · have hmem := (c7_anchor_classification metaW7 anchorsW7).2.1
      ⟨S "PixelServer", some (S "https://p.ex/u/abc"), none⟩ (by decide)
      (S "https://p.ex/u/abc") (by decide) (by decide) (by decide)
    have hcl : cleanPixelUrl (S "https://p.ex/u/abc") = S "https://p.ex/api/file/abc" := by decide
    rw [hcl] at hmem
    exact hmem

/-- C9: when an entry row has a cloud-hop (`HubCloud`) anchor with a truthy
`href`, `extractSourceResults` commits to it — the row's result is exactly
`{url: resolveRedirectUrl(link), meta, type: 'cloud'}` for every
environment, so no drive-hop anchor in the row is ever consulted; when the
redirect resolution fails, the result still exists but carries a null
`url`, so `processItem` contributes zero streams for the row; and a
drive-typed result can only arise when no truthy cloud anchor is present. -/
theorem c9_cloud_commit :
    ∀ (env : Env) (e : Entry),
      (∀ link, truthyS (hubAnchorHref e.anchors (S "HubCloud")) = some link →
        extractSourceResultsX env e =
          Except.ok (some ⟨resolveRedirectUrlM env link, metaOf e, S "cloud"⟩)) ∧
      (∀ link, truthyS (hubAnchorHref e.anchors (S "HubCloud")) = some link →
        resolveRedirectUrlM env link = none → processItemX env e = Except.ok []) ∧
      (∀ sr, extractSourceResultsX env e = Except.ok (some sr) → sr.rtype = S "drive" →
        truthyS (hubAnchorHref e.anchors (S "HubCloud")) = none) := by
  intro env e
  have hmain : ∀ link, truthyS (hubAnchorHref e.anchors (S "HubCloud")) = some link →
      extractSourceResultsX env e =
        Except.ok (some ⟨resolveRedirectUrlM env link, metaOf e, S "cloud"⟩) := by
    intro link hlink
    unfold extractSourceResultsX
    rw [hlink]
    dsimp only
    have hok := resolveRedirectUrlX_isOk env link
    cases hx : resolveRedirectUrlX env link with
    | error er => rw [hx] at hok; exact absurd hok (by simp [isOkE])
    | ok v =>
      unfold resolveRedirectUrlM
      rw [hx]
  refine ⟨hmain, ?_, ?_⟩
  · intro link hlink hres
    have h1 := hmain link hlink
    rw [hres] at h1
    unfold processItemX
    rw [h1]
    rfl
  · intro sr hsr hdrive
    cases hcl : truthyS (hubAnchorHref e.anchors (S "HubCloud")) with
    | none => rfl
    | some link =>
      have h1 := hmain link hcl
      rw [h1] at hsr
      simp only [Except.ok.injEq, Option.some.injEq] at hsr
      rw [← hsr] at hdrive
      have hcd : S "cloud" = S "drive" := hdrive
      exact absurd hcd (by decide)

/-- C9 witness: the row with a failing cloud redirect still yields a
cloud-typed result with a null `url`, and contributes zero streams; the
drive anchor is never consulted. -/
theorem c9_cloud_commit_witness :
    extractSourceResultsX envW9 entryW9 =
      Except.ok (some ⟨none, metaOf entryW9, S "cloud"⟩) ∧
    processItemX envW9 entryW9 = Except.ok [] := by
  constructor
  · have h := (c9_cloud_commit envW9 entryW9).1 (S "https://hub.ex/r1") (by decide)
    rw [show resolveRedirectUrlM envW9 (S "https://hub.ex/r1") = none from by decide] at h
    exact h
  · exact (c9_cloud_commit envW9 entryW9).2.1 (S "https://hub.ex/r1") (by decide) (by decide)

/-- Characters of the base64 alphabet (or pad) are latin-1 and are neither
quotes, line breaks nor backslashes — so an encoded token passes unharmed
through the quote-delimited regex capture and the JSON string literal. -/
theorem isB64Char_facts (c : Nat) (h : isB64Char c = true) :
    c < 256 ∧ c ≠ 39 ∧ c ≠ 34 ∧ c ≠ 10 ∧ c ≠ 13 ∧ c ≠ 92 := by
  unfold isB64Char at h
  rcases Bool.or_eq_true_iff.mp h with h1 | h2
  · unfold b64val at h1
    split_ifs at h1 with g1 g2 g3 g4 g5
    · simp only [Bool.and_eq_true, decide_eq_true_eq] at g1; omega
    · simp only [Bool.and_eq_true, decide_eq_true_eq] at g2; omega
    · simp only [Bool.and_eq_true, decide_eq_true_eq] at g3; omega
    · omega
    · omega
    · simp at h1
  · simp only [decide_eq_true_eq] at h2
    omega

theorem b64encode_lt (bs : List Nat) (hb : ∀ b ∈ bs, b < 256) :
    ∀ c ∈ b64encode bs, c < 256 :=
  fun c hc => (isB64Char_facts c (b64encode_chars bs hb c hc)).1

theorem rot13_lt_list (s : Str) (h : ∀ c ∈ s, c < 256) : ∀ c ∈ rot13 s, c < 256 := by
  intro c hc
  unfold rot13 at hc
  rcases List.mem_map.mp hc with ⟨a, ha, rfl⟩
  exact rot13c_lt a (h a ha)

theorem jsonWrap_lt (v : Str) (hv : ∀ c ∈ v, c < 256) : ∀ c ∈ jsonWrap v, c < 256 := by
  intro c hc
  unfold jsonWrap at hc
  simp only [List.mem_cons, List.mem_append] at hc
  rcases hc with h | h | h | h | h | h | h
  · omega
  · omega
  · omega
  · omega
  · omega
  · omega
  · rcases h with h | h
    · exact hv c h
    · simp only [List.mem_cons, List.not_mem_nil, or_false] at h
      rcases h with h | h <;> omega

theorem b64encode_ne_nil : ∀ d : List Nat, d ≠ [] → b64encode d ≠ [] := by
  intro d hd
  match d with
  | [] => exact absurd rfl hd
  | [b1] => simp [b64encode]
  | [b1, b2] => simp [b64encode]
  | b1 :: b2 :: b3 :: r => simp [b64encode]

theorem scanCapture_clean (tok rest : Str)
    (h : ∀ c ∈ tok, c ≠ 39 ∧ c ≠ 34 ∧ c ≠ 10 ∧ c ≠ 13) :
    scanCapture (tok ++ 39 :: rest) = some (tok, rest) := by
  induction tok with
  | nil => simp [scanCapture]
  | cons c t ih =>
    have hc := h c (by simp)
    simp only [List.cons_append, scanCapture]
    rw [if_neg (by tauto), if_neg (by tauto)]
    rw [List.append_eq, ih (fun x hx => h x (by simp [hx]))]
    rfl

theorem matchOAt_ne (c : Nat) (l : Str) (hc : c ≠ 39) : matchOAt (c :: l) = none := by
  unfold matchOAt
  cases l with
  | nil => rfl
  | cons a as =>
    cases as with
    | nil => rfl
    | cons b bs =>
      dsimp only
      rw [if_neg (by tauto)]

theorem matchOAt_pattern (tok rest : Str)
    (h : ∀ c ∈ tok, c ≠ 39 ∧ c ≠ 34 ∧ c ≠ 10 ∧ c ≠ 13) :
    matchOAt (39 :: 111 :: 39 :: 44 :: 39 :: (tok ++ 39 :: rest)) = some tok := by
  unfold matchOAt
  dsimp only
  rw [if_pos (by omega)]
  rw [show dropWS (44 :: 39 :: (tok ++ 39 :: rest)) = 44 :: 39 :: (tok ++ 39 :: rest) from by
    simp [dropWS, List.dropWhile_cons, isWS]]
  dsimp only
  rw [if_pos rfl]
  rw [show dropWS (39 :: (tok ++ 39 :: rest)) = 39 :: (tok ++ 39 :: rest) from by
    simp [dropWS, List.dropWhile_cons, isWS]]
  dsimp only
  rw [if_pos (Or.inl rfl)]
  rw [scanCapture_clean tok rest h]
  rfl

theorem extractOToken_skip (pre rest : Str) (hpre : ∀ c ∈ pre, c ≠ 39) :
    extractOToken (pre ++ rest) = extractOToken rest := by
  induction pre with
  | nil => rfl
  | cons c p ih =>
    have hc := hpre c (by simp)
    simp only [List.cons_append, extractOToken]
    rw [matchOAt_ne c _ hc]
    exact ih (fun x hx => hpre x (by simp [hx]))

theorem extractOToken_hit (l tok : Str) (h : matchOAt l = some tok) :
    extractOToken l = some tok := by
  cases l with
  | nil => exact absurd h (by simp [matchOAt])
  | cons c t =>
    simp only [extractOToken]
    rw [h]

theorem parseJsonStringLit_clean (v rest : Str) (hv : ∀ c ∈ v, c ≠ 34 ∧ c ≠ 92) :
    parseJsonStringLit (v ++ 34 :: rest) = some (v, rest) := by
  induction v with
  | nil => simp [parseJsonStringLit]
  | cons c t ih =>
    have hc := hv c (by simp)
    simp only [List.cons_append, parseJsonStringLit]
    rw [if_neg (by tauto), if_neg (by tauto)]
    rw [List.append_eq, ih (fun x hx => hv x (by simp [hx]))]
    rfl

theorem parseJsonPairs_wrap (v : Str) (fuel : Nat) (hfuel : 1 ≤ fuel)
    (hv : ∀ c ∈ v, c ≠ 34 ∧ c ≠ 92) :
    parseJsonPairs (34 :: 111 :: 34 :: 58 :: 34 :: (v ++ [34, 125])) fuel =
      some [([111], v)] := by
  match fuel, hfuel with
  | f + 1, _ =>
    unfold parseJsonPairs
    dsimp only
    rw [show parseJsonStringLit (111 :: 34 :: 58 :: 34 :: (v ++ [34, 125])) =
        some ([111], 58 :: 34 :: (v ++ [34, 125])) from by simp [parseJsonStringLit]]
    dsimp only
    rw [parseJsonStringLit_clean v [125] hv]
    rfl

theorem jsonParseE_wrap (v : Str) (hv : ∀ c ∈ v, c ≠ 34 ∧ c ≠ 92) :
    jsonParseE (jsonWrap v) = Except.ok [(S "o", v)] := by
  unfold jsonParseE jsonWrap
  dsimp only
  rw [if_neg (by simp)]
  rw [parseJsonPairs_wrap v _ (by simp) hv]
  have ho : S "o" = ([111] : Str) := by decide
  rw [ho]

/-- The decode chain of `resolveRedirectUrl` inverts the four-stage
encoding: on a page carrying `'o','<token>'` with a validly encoded token,
the `try` body recovers the original destination exactly. -/
theorem decodeRedirectE_encoded (pre suf dest : Str)
    (hpre : ∀ c ∈ pre, c ≠ 39) (hd : ∀ c ∈ dest, c < 256) (hne : dest ≠ []) :
    decodeRedirectE (pre ++ 39 :: 111 :: 39 :: 44 :: 39 :: (encodeToken dest ++ 39 :: suf)) =
      Except.ok (some dest) := by
  have hA : ∀ c ∈ b64encode dest, c < 256 := b64encode_lt dest hd
  have hAclean : ∀ c ∈ b64encode dest, c ≠ 34 ∧ c ≠ 92 := fun c hc =>
    ⟨((isB64Char_facts c (b64encode_chars dest hd c hc)).2.2.1),
     ((isB64Char_facts c (b64encode_chars dest hd c hc)).2.2.2.2.2)⟩
  have hJ : ∀ c ∈ jsonWrap (b64encode dest), c < 256 := jsonWrap_lt _ hA
  have hB : ∀ c ∈ b64encode (jsonWrap (b64encode dest)), c < 256 := b64encode_lt _ hJ
  have hR : ∀ c ∈ rot13 (b64encode (jsonWrap (b64encode dest))), c < 256 := rot13_lt_list _ hB
  have hC : ∀ c ∈ b64encode (rot13 (b64encode (jsonWrap (b64encode dest)))), c < 256 :=
    b64encode_lt _ hR
  have htokclean : ∀ c ∈ encodeToken dest, c ≠ 39 ∧ c ≠ 34 ∧ c ≠ 10 ∧ c ≠ 13 := by
    intro c hc
    unfold encodeToken at hc
    have := isB64Char_facts c (b64encode_chars _ hC c hc)
    exact ⟨this.2.1, this.2.2.1, this.2.2.2.1, this.2.2.2.2.1⟩
  unfold decodeRedirectE
  rw [extractOToken_skip pre _ hpre,
    extractOToken_hit _ (encodeToken dest) (matchOAt_pattern (encodeToken dest) suf htokclean)]
  dsimp only
  unfold encodeToken
  rw [atobJS_b64encode (b64encode (rot13 (b64encode (jsonWrap (b64encode dest))))) hC]
  rw [atobJS_b64encode (rot13 (b64encode (jsonWrap (b64encode dest)))) hR]
  rw [rot13_rot13]
  rw [atobJS_b64encode (jsonWrap (b64encode dest)) hJ]
  rw [jsonParseE_wrap (b64encode dest) hAclean]
  dsimp only
  rw [show jsonField [(S "o", b64encode dest)] (S "o") = some (b64encode dest) from by
    simp [jsonField]]
  rw [show truthyS (some (b64encode dest)) = some (b64encode dest) from by
    simp [truthyS, b64encode_ne_nil dest hne]]
  dsimp only
  rw [atobJS_b64encode dest hd]

/-- C1: for every redirect page of the form `<prefix>'o','<token>'<suffix>`
(the prefix free of single quotes, so the shown occurrence is the leftmost
match of the token pattern), where the token is the valid four-stage
encoding of `{"o": base64(destination)}`, `resolveRedirectUrl` — on a cache
miss, with the page fetched successfully — applies base64-decode,
base64-decode, rotate-13, base64-decode, parses the JSON, base64-decodes
its field `o`, and returns exactly the original destination URL. -/
theorem c1_redirect_roundtrip :
    ∀ (env : Env) (url pre suf dest : Str),
      env.cacheRedirect (redirectCacheKey url) = none →
      netOf env url =
        some (pre ++ 39 :: 111 :: 39 :: 44 :: 39 :: (encodeToken dest ++ 39 :: suf)) →
      (∀ c ∈ pre, c ≠ 39) →
      (∀ c ∈ dest, c < 256) →
      dest ≠ [] →
      resolveRedirectUrlM env url = some dest := by
  intro env url pre suf dest hcache hnet hpre hd hne
  unfold resolveRedirectUrlM resolveRedirectUrlX
  rw [hcache, hnet]
  rw [show truthyS (some (pre ++ 39 :: 111 :: 39 :: 44 :: 39 :: (encodeToken dest ++ 39 :: suf)))
      = some (pre ++ 39 :: 111 :: 39 :: 44 :: 39 :: (encodeToken dest ++ 39 :: suf)) from by
    simp [truthyS]]
  dsimp only
  rw [decodeRedirectE_encoded pre suf dest hpre hd hne]
  rfl

/-- C1 witness: resolving the concrete encoded redirect page recovers the
destination URL. -/
theorem c1_redirect_roundtrip_witness :
    resolveRedirectUrlM envW1 urlW1 = some destW1 :=
  c1_redirect_roundtrip envW1 urlW1 (S "<script>s(") (S ");</script>") destW1
    rfl (by decide) (by decide) (by decide) (by decide)
